import Mathlib

/-!
# Jano: a minimal HTTP request router

Shallow embedding of `jano.go` (package `jano`).

* A Go `string` is a finite sequence of bytes; it is modelled as a `List Char`.  The three
  delimiters the router looks at (`/`, `{`, `}`) are single elements of the sequence.
* A Go `map[K]V` is modelled as an association list `List (K × V)`; `m[k] = v` replaces the
  entry of `k` or appends one.  `range` over a map visits the entries in an unspecified order:
  every function that ranges over a map takes the visiting order as an argument, and the
  theorems quantify over all permutations of the entries.
* Run-time panics (index or slice out of range) are explicit: fallible code returns `Except Panic`.
* A handler `func(w http.ResponseWriter, r *http.Request)` is a function of the response writer,
  the request and the state of the world, returning the new world or a panic.
-/

set_option autoImplicit false

namespace jano

/-- A Go `string`. -/
abbrev GoString := List Char

/-- Run-time panics of the Go code that is modelled. -/
inductive Panic where
  | indexOutOfRange
  | sliceBoundsOutOfRange
  deriving DecidableEq, Repr

deriving instance DecidableEq for Except

/-! ## Go built-ins: strings, slices, maps -/

namespace strings

/-- Go `strings.Split(s, sep)` for a separator `sep` of one byte: the substrings between the
separators; `n` separators give `n + 1` substrings, so the result is never empty. -/
def Split (s : GoString) (sep : Char) : List GoString :=
  match s with
  | [] => [[]]
  | c :: cs =>
    if c = sep then [] :: Split cs sep
    else
      match Split cs sep with
      | [] => [[c]]
      | seg :: rest => (c :: seg) :: rest

/-- Go `strings.HasPrefix(s, p)`. -/
def HasPrefix (s p : GoString) : Bool := p.isPrefixOf s

/-- Go `strings.HasSuffix(s, p)`. -/
def HasSuffix (s p : GoString) : Bool := p.isSuffixOf s

end strings

/-- Go index expression `xs[i]` on a slice: panics when `i` is out of range. -/
def index {α : Type} (xs : List α) (i : Nat) : Except Panic α :=
  match xs.get? i with
  | some x => .ok x
  | none => .error .indexOutOfRange

/-- Go slice expression `s[lo:hi]` on a string, with `int` bounds: panics unless
`0 ≤ lo ≤ hi ≤ len(s)`. -/
def slice (s : GoString) (lo hi : Int) : Except Panic GoString :=
  if 0 ≤ lo ∧ lo ≤ hi ∧ hi ≤ (s.length : Int) then
    .ok ((s.drop lo.toNat).take (hi.toNat - lo.toNat))
  else .error .sliceBoundsOutOfRange

/-- A Go `map[K]V`, as an association list. -/
abbrev GoMap (K V : Type) := List (K × V)

namespace GoMap

variable {K V : Type} [DecidableEq K]

/-- Go `v, ok := m[k]`. -/
def lookup (m : GoMap K V) (k : K) : Option V :=
  match m with
  | [] => none
  | (k', v) :: rest => if k' = k then some v else lookup rest k

/-- Go `m[k] = v`. -/
def set (m : GoMap K V) (k : K) (v : V) : GoMap K V :=
  match m with
  | [] => [(k, v)]
  | (k', v') :: rest => if k' = k then (k, v) :: rest else (k', v') :: set rest k v

/-- The keys of a map. -/
def keys (m : GoMap K V) : List K := m.map Prod.fst

end GoMap

/-! ## Requests, contexts, handlers -/

/-- A Go interface value (`any`) as far as the router is concerned: a `string`, or a value of
some other dynamic type. Two interface values are equal when type and value are. -/
inductive GoAny where
  | str (s : GoString)
  | other (tag : Nat)
  deriving DecidableEq, Repr

/-- A `context.Context` restricted to its values: the chain of `WithValue` pairs, innermost
first. The empty chain is `context.Background()`. -/
abbrev Context := List (GoAny × GoAny)

/-- Go `context.WithValue(ctx, key, value)`. -/
def Context.WithValue (ctx : Context) (key value : GoAny) : Context := (key, value) :: ctx

/-- Go `ctx.Value(key)`: the value of the innermost pair with that key, `none` for `nil`. -/
def Context.Value (ctx : Context) (key : GoAny) : Option GoAny :=
  match ctx with
  | [] => none
  | (k, v) :: rest => if k = key then some v else Context.Value rest key

/-- The parts of an `*http.Request` the router reads or changes: `r.Method`, `r.URL.Path` and
the request's context. -/
structure Request where
  Method : GoString
  Path : GoString
  ctx : Context
  deriving DecidableEq, Repr

/-- Go `r.Context()`. -/
def Request.Context (r : Request) : jano.Context := r.ctx

/-- Go `r.WithContext(ctx)`: a copy of the request with its context changed. -/
def Request.WithContext (r : Request) (ctx : jano.Context) : Request := { r with ctx := ctx }

/-- An `http.Handler` / `http.HandlerFunc`: `ServeHTTP(w, r)` acting on the world `W`. -/
abbrev Handler (RW W : Type) := RW → Request → W → Except Panic W

/-- A middleware `func(http.Handler) http.Handler`. -/
abbrev Middleware (RW W : Type) := Handler RW W → Handler RW W

/-- The bound parameters `map[string]string`. -/
abbrev Params := GoMap GoString GoString

/-- The method table `map[string]http.HandlerFunc` of one pattern. -/
abbrev MethodHandlers (RW W : Type) := GoMap GoString (Handler RW W)

/-- The route table `map[string]map[string]http.HandlerFunc`. -/
abbrev Routes (RW W : Type) := GoMap GoString (MethodHandlers RW W)

/-- Struct `Jano`: routes, middlewares and the not-found handler. -/
structure Jano (RW W : Type) where
  routes : Routes RW W
  middlewares : List (Middleware RW W)
  notFound : Handler RW W

section Router

variable {RW W : Type}

/-- `New`: a router with no route and no middleware; `httpNotFound` stands for the standard
library's `http.NotFound`. -/
def New (httpNotFound : Handler RW W) : Jano RW W :=
  { routes := [], middlewares := [], notFound := httpNotFound }

/-- `Use`: appends a middleware to the chain. -/
def Use (j : Jano RW W) (middleware : Middleware RW W) : Jano RW W :=
  { j with middlewares := j.middlewares ++ [middleware] }

/-- `addRoute`: creates the method table of `path` when there is none, then stores the handler
under `method` in it. The second step reads `j.routes[path]` again; the table exists by then,
so the zero value `[]` of `getD` is never taken. -/
def addRoute (j : Jano RW W) (method path : GoString) (handler : Handler RW W) : Jano RW W :=
  let routes1 : Routes RW W :=
    match GoMap.lookup j.routes path with
    | none => GoMap.set j.routes path []
    | some _ => j.routes
  let methodHandlers : MethodHandlers RW W := (GoMap.lookup routes1 path).getD []
  { j with routes := GoMap.set routes1 path (GoMap.set methodHandlers method handler) }

/-- `Get` registers a GET handler. -/
def Get (j : Jano RW W) (path : GoString) (handler : Handler RW W) : Jano RW W :=
  addRoute j "GET".toList path handler

/-- `Post` registers a POST handler. -/
def Post (j : Jano RW W) (path : GoString) (handler : Handler RW W) : Jano RW W :=
  addRoute j "POST".toList path handler

/-- `Put` registers a PUT handler. -/
def Put (j : Jano RW W) (path : GoString) (handler : Handler RW W) : Jano RW W :=
  addRoute j "PUT".toList path handler

/-- `Delete` registers a DELETE handler. -/
def Delete (j : Jano RW W) (path : GoString) (handler : Handler RW W) : Jano RW W :=
  addRoute j "DELETE".toList path handler

/-- `Patch` registers a PATCH handler. -/
def Patch (j : Jano RW W) (path : GoString) (handler : Handler RW W) : Jano RW W :=
  addRoute j "PATCH".toList path handler

/-- `Options` registers an OPTIONS handler. -/
def Options (j : Jano RW W) (path : GoString) (handler : Handler RW W) : Jano RW W :=
  addRoute j "OPTIONS".toList path handler

/-- `Head` registers a HEAD handler. -/
def Head (j : Jano RW W) (path : GoString) (handler : Handler RW W) : Jano RW W :=
  addRoute j "HEAD".toList path handler

/-- `NotFound` sets the custom 404 handler. -/
def NotFound (j : Jano RW W) (handler : Handler RW W) : Jano RW W :=
  { j with notFound := handler }

/-- The loop `for i := range routeParts` of `matchRoute`, from index `i` on: `todo` are the
elements `routeParts[i:]` still to visit and `params` is the map built so far. The result is
`none` for `(nil, false)` and `some params` for `(params, true)`. -/
def matchLoop (pathParts : List GoString) (todo : List GoString) (i : Nat) (params : Params) :
    Except Panic (Option Params) :=
  match todo with
  | [] => .ok (some params)
  | routePart :: rest =>
    if strings.HasPrefix routePart "\x7b".toList && strings.HasSuffix routePart "\x7d".toList then
      match slice routePart 1 ((routePart.length : Int) - 1) with
      | .error e => .error e
      | .ok paramName =>
        match index pathParts i with
        | .error e => .error e
        | .ok pathPart => matchLoop pathParts rest (i + 1) (GoMap.set params paramName pathPart)
    else
      match index pathParts i with
      | .error e => .error e
      | .ok pathPart =>
        if routePart ≠ pathPart then .ok none
        else matchLoop pathParts rest (i + 1) params

/-- `matchRoute` checks if the route matches the path and extracts parameters: `none` for
`(nil, false)`, `some params` for `(params, true)`. -/
def matchRoute (route path : GoString) : Except Panic (Option Params) :=
  let routeParts := strings.Split route '/'
  let pathParts := strings.Split path '/'
  if routeParts.length ≠ pathParts.length then .ok none
  else matchLoop pathParts routeParts 0 []

/-- `findHandler` on the visiting order `order` of `range j.routes`: `none` for
`(nil, nil, false)`, `some (handler, params)` for `(handler, params, true)`. -/
def findHandler (order : List (GoString × MethodHandlers RW W)) (method path : GoString) :
    Except Panic (Option (Handler RW W × Params)) :=
  match order with
  | [] => .ok none
  | (route, methodHandlers) :: rest =>
    match matchRoute route path with
    | .error e => .error e
    | .ok (some params) =>
      match GoMap.lookup methodHandlers method with
      | some handler => .ok (some (handler, params))
      | none => findHandler rest method path
    | .ok none => findHandler rest method path

/-- `setParams` adds the parameters to the request context; `order` is the visiting order of
`range params`. -/
def setParams (r : Request) (order : List (GoString × GoString)) : Request :=
  r.WithContext
    (order.foldl (fun ctx kv => Context.WithValue ctx (.str kv.1) (.str kv.2)) r.Context)

/-- The loop `for i := len(j.middlewares) - 1; i >= 0; i--` of `Router`, with `n = i + 1`
iterations left. -/
def wrapLoop (middlewares : List (Middleware RW W)) :
    (n : Nat) → n ≤ middlewares.length → Handler RW W → Handler RW W
  | 0, _, wrappedHandler => wrappedHandler
  | i + 1, hi, wrappedHandler =>
    wrapLoop middlewares i (Nat.le_of_succ_le hi) ((middlewares.get ⟨i, hi⟩) wrappedHandler)

/-- `Router` returns the `http.Handler` to be used by `http.Server`. `routeOrder` is the
visiting order of `range j.routes` for this request and `paramOrder` gives the visiting order of
`range params`. -/
def Router (j : Jano RW W) (routeOrder : List (GoString × MethodHandlers RW W))
    (paramOrder : Params → List (GoString × GoString)) : Handler RW W :=
  fun w r =>
    match findHandler routeOrder r.Method r.Path with
    | .error e => fun _ => .error e
    | .ok none => j.notFound w r
    | .ok (some (handler, params)) =>
      let r1 := setParams r (paramOrder params)
      let wrappedHandler := wrapLoop j.middlewares j.middlewares.length (Nat.le_refl _) handler
      wrappedHandler w r1

end Router

/-! ## Auxiliary definitions used to state the properties -/

/-- The test `matchRoute` applies to a pattern segment: it starts with `{` and ends with `}`. -/
def isParamPart (routePart : GoString) : Bool :=
  strings.HasPrefix routePart "\x7b".toList && strings.HasSuffix routePart "\x7d".toList

/-- The pattern segment `{name}`. -/
def paramPart (name : GoString) : GoString := '{' :: (name ++ ['}'])

/-- The run of `matchRoute` over two segment lists of which the second is long enough, without
the index arithmetic: the map after the last segment, or `none` at the first literal mismatch. -/
def bindParts (routeParts pathParts : List GoString) (params : Params) : Option Params :=
  match routeParts, pathParts with
  | [], _ => some params
  | _ :: _, [] => none
  | routePart :: rs, pathPart :: ps =>
    if isParamPart routePart then
      bindParts rs ps (GoMap.set params ((routePart.drop 1).take (routePart.length - 2)) pathPart)
    else if routePart = pathPart then bindParts rs ps params
    else none

/-- The value of the last position at which the pattern has the segment `{name}`. -/
def lastBinding (routeParts pathParts : List GoString) (name : GoString) : Option GoString :=
  match routeParts, pathParts with
  | routePart :: rs, pathPart :: ps =>
    match lastBinding rs ps name with
    | some v => some v
    | none => if routePart = paramPart name then some pathPart else none
  | _, _ => none

/-- The handler `Router` builds around a matched handler, as a fold: the middleware at index 0
is applied last. -/
def wrapAll {RW W : Type} (middlewares : List (Middleware RW W)) (handler : Handler RW W) :
    Handler RW W :=
  middlewares.foldr (fun m wrapped => m wrapped) handler

/-- The candidate a table entry offers to a request: its handler for the method together with
the parameters bound, when the pattern matches and has the method. -/
def candidate {RW W : Type} (method path : GoString) (entry : GoString × MethodHandlers RW W) :
    Option (Handler RW W × Params) :=
  match matchRoute entry.1 path with
  | .ok (some params) =>
    match GoMap.lookup entry.2 method with
    | some handler => some (handler, params)
    | none => none
  | _ => none

/-- The parameter names of a pattern, in the order of their segments. -/
def paramNames (pattern : GoString) : List GoString :=
  ((strings.Split pattern '/').filter isParamPart).map
    (fun seg => (seg.drop 1).take (seg.length - 2))

/-- The handlers a route table stores under the pair `(pattern, method)`, entry by entry. -/
def handlersAt {RW W : Type} (routes : Routes RW W) (pattern method : GoString) :
    List (Handler RW W) :=
  ((routes.filter (fun e => decide (e.1 = pattern))).map
    (fun e => (e.2.filter (fun x => decide (x.1 = method))).map Prod.snd)).flatten

/-- What the association lists of a router state owe to the Go maps they stand for: no key
occurs twice, in the route table and in each method table. -/
def WellFormed {RW W : Type} (j : Jano RW W) : Prop :=
  (GoMap.keys j.routes).Nodup ∧ ∀ e ∈ j.routes, (GoMap.keys e.2).Nodup

/-! ## Concrete handlers and routers used as test inputs -/

/-- What a handler or a middleware records in the log when it runs. -/
inductive Event where
  | enter (middleware : Nat)
  | handled (handler : Nat)
  | leave (middleware : Nat)
  deriving DecidableEq, Repr

/-- A handler that appends its number to the log. -/
def logHandler (n : Nat) : Handler Unit (List Event) :=
  fun _ _ log => .ok (log ++ [.handled n])

/-- A middleware that records when it is entered, calls the next handler, and records when
it is left. -/
def logMiddleware (n : Nat) : Middleware Unit (List Event) :=
  fun next w r log =>
    match next w r (log ++ [.enter n]) with
    | .ok log1 => .ok (log1 ++ [.leave n])
    | .error e => .error e

/-- A GET request for a path, with a context that already holds one value. -/
def getRequest (path : String) : Request :=
  { Method := "GET".toList, Path := path.toList, ctx := [(.other 7, .str "trace".toList)] }

/-- A router with the single route `GET /x` and no middleware. -/
def xRouter : Jano Unit (List Event) :=
  Get (New (logHandler 404)) "/x".toList (logHandler 0)

/-- The router `xRouter` after `Use(M1)` and then `Use(M2)`. -/
def onionRouter : Jano Unit (List Event) :=
  Use (Use xRouter (logMiddleware 1)) (logMiddleware 2)

/-- A router with `GET /people/{id}` (handler 1) and `GET /people/new` (handler 2). -/
def peopleRouter : Jano Unit (List Event) :=
  Get (Get (New (logHandler 404)) "/people/{id}".toList (logHandler 1))
    "/people/new".toList (logHandler 2)

/-- A router with the single route `GET /people/{id}`. -/
def personRouter : Jano Unit (List Event) :=
  Get (New (logHandler 404)) "/people/{id}".toList (logHandler 1)

/-- A router with the single route `GET /v1/{v1}/{v2}/{v3}/{v4}/{v5}`. -/
def manyVarsRouter : Jano Unit (List Event) :=
  Get (New (logHandler 404)) "/v1/{v1}/{v2}/{v3}/{v4}/{v5}".toList (logHandler 0)

/-! ## Maps -/

namespace GoMap

variable {K V : Type} [DecidableEq K]

theorem lookup_set (m : GoMap K V) (k k' : K) (v : V) :
    lookup (set m k v) k' = if k = k' then some v else lookup m k' := by
  induction m with
  | nil => simp [set, lookup]
  | cons e rest ih =>
    obtain ⟨a, b⟩ := e
    by_cases h : a = k
    · subst h
      by_cases h' : a = k' <;> simp [set, lookup, h']
    · by_cases h' : a = k'
      · subst h'
        have : ¬ k = a := fun e => h e.symm
        simp [set, lookup, h, this]
      · simp [set, lookup, h, h', ih]

theorem lookup_set_self (m : GoMap K V) (k : K) (v : V) : lookup (set m k v) k = some v := by
  simp [lookup_set]

theorem lookup_set_ne (m : GoMap K V) {k k' : K} (v : V) (h : k ≠ k') :
    lookup (set m k v) k' = lookup m k' := by
  simp [lookup_set, h]

theorem set_set (m : GoMap K V) (k : K) (v₁ v₂ : V) : set (set m k v₁) k v₂ = set m k v₂ := by
  induction m with
  | nil => simp [set]
  | cons e rest ih =>
    obtain ⟨a, b⟩ := e
    by_cases h : a = k
    · simp [set, h]
    · simp [set, h, ih]

theorem lookup_eq_none_iff (m : GoMap K V) (k : K) : lookup m k = none ↔ k ∉ keys m := by
  induction m with
  | nil => simp [lookup, keys]
  | cons e rest ih =>
    obtain ⟨a, b⟩ := e
    by_cases h : a = k
    · simp [lookup, keys, h]
    · have h' : ¬ k = a := fun e => h e.symm
      simpa [lookup, keys, h, h'] using ih

theorem mem_of_lookup {m : GoMap K V} {k : K} {v : V} (h : lookup m k = some v) :
    (k, v) ∈ m := by
  induction m with
  | nil => simp [lookup] at h
  | cons e rest ih =>
    obtain ⟨a, b⟩ := e
    by_cases hk : a = k
    · simp [lookup, hk] at h
      simp [hk, h]
    · simp [lookup, hk] at h
      exact List.mem_cons_of_mem _ (ih h)

theorem lookup_of_mem {m : GoMap K V} (hnd : (keys m).Nodup) {k : K} {v : V}
    (h : (k, v) ∈ m) : lookup m k = some v := by
  induction m with
  | nil => simp at h
  | cons e rest ih =>
    obtain ⟨a, b⟩ := e
    simp only [keys, List.map_cons, List.nodup_cons] at hnd
    rcases List.mem_cons.mp h with h | h
    · cases h
      simp [lookup]
    · have hne : a ≠ k := by
        rintro rfl
        exact hnd.1 (List.mem_map.mpr ⟨(a, v), h, rfl⟩)
      simp only [lookup, hne, if_false]
      exact ih hnd.2 h

theorem keys_set (m : GoMap K V) (k : K) (v : V) :
    keys (set m k v) = if k ∈ keys m then keys m else keys m ++ [k] := by
  induction m with
  | nil => simp [set, keys]
  | cons e rest ih =>
    obtain ⟨a, b⟩ := e
    by_cases h : a = k
    · subst h
      simp [set, keys]
    · have h' : ¬ k = a := fun e => h e.symm
      simp only [keys] at ih
      simp only [set, keys, h, if_false, List.map_cons, ih, List.mem_cons, h', false_or]
      split <;> simp

theorem nodup_keys_set {m : GoMap K V} (h : (keys m).Nodup) (k : K) (v : V) :
    (keys (set m k v)).Nodup := by
  rw [keys_set]
  split
  · exact h
  · rename_i hk
    exact List.Nodup.append h (List.nodup_singleton k) (by simpa using hk)

end GoMap

/-! ## Parameter segments and slicing -/

theorem isParamPart_iff (seg : GoString) :
    isParamPart seg = true ↔ ∃ name, seg = paramPart name := by
  unfold isParamPart strings.HasPrefix strings.HasSuffix paramPart
  rw [Bool.and_eq_true, List.isPrefixOf_iff_prefix, List.isSuffixOf_iff_suffix]
  constructor
  · rintro ⟨⟨t, ht⟩, ⟨u, hu⟩⟩
    simp only [String.toList] at ht hu
    cases u with
    | nil =>
      rw [← ht] at hu
      simp at hu
    | cons c u =>
      rw [← hu] at ht
      simp only [List.cons_append, List.singleton_append, List.cons.injEq] at ht
      refine ⟨u, ?_⟩
      rw [← hu, ← ht.1]
      rfl
  · rintro ⟨name, rfl⟩
    exact ⟨⟨name ++ ['}'], rfl⟩, ⟨'{' :: name, by simp [String.toList]⟩⟩

theorem isParamPart_paramPart (name : GoString) : isParamPart (paramPart name) = true :=
  (isParamPart_iff _).mpr ⟨name, rfl⟩

theorem paramPart_injective {a b : GoString} (h : paramPart a = paramPart b) : a = b := by
  unfold paramPart at h
  simpa using h

theorem name_paramPart (name : GoString) :
    ((paramPart name).drop 1).take ((paramPart name).length - 2) = name := by
  simp [paramPart]

theorem slice_paramPart (name : GoString) :
    slice (paramPart name) 1 (((paramPart name).length : Int) - 1) = .ok name := by
  have hlen : (paramPart name).length = name.length + 2 := by simp [paramPart]
  have hc : (0 : Int) ≤ 1 ∧ (1 : Int) ≤ ((paramPart name).length : Int) - 1
      ∧ ((paramPart name).length : Int) - 1 ≤ ((paramPart name).length : Int) := by
    rw [hlen]
    refine ⟨by decide, ?_, ?_⟩ <;> push_cast <;> omega
  unfold slice
  rw [if_pos hc]
  have h0 : (((name.length + 2 : Nat) : Int) - 1) = ((name.length + 1 : Nat) : Int) := by
    push_cast; omega
  have h1 : ((((paramPart name).length : Int) - 1).toNat - (1 : Int).toNat) = name.length := by
    rw [hlen, h0, Int.toNat_ofNat]
    simp
  rw [h1]
  simp [paramPart]

theorem slice_of_isParamPart {seg : GoString} (h : isParamPart seg = true) :
    slice seg 1 ((seg.length : Int) - 1) = .ok ((seg.drop 1).take (seg.length - 2)) := by
  obtain ⟨name, rfl⟩ := (isParamPart_iff seg).mp h
  rw [slice_paramPart, name_paramPart]

theorem index_append_length {α : Type} (pre : List α) (x : α) (post : List α) :
    index (pre ++ x :: post) pre.length = .ok x := by
  have h : (pre ++ x :: post)[pre.length]? = some x := by
    rw [List.getElem?_append_right (Nat.le_refl _)]
    simp
  simp only [index, List.get?_eq_getElem?, h]

/-! ## `matchRoute` -/

theorem matchLoop_eq (pre : List GoString) (routeParts pathParts : List GoString)
    (params : Params) (hlen : routeParts.length ≤ pathParts.length) :
    matchLoop (pre ++ pathParts) routeParts pre.length params
      = .ok (bindParts routeParts pathParts params) := by
  induction routeParts generalizing pre pathParts params with
  | nil => simp [matchLoop, bindParts]
  | cons rp rs ih =>
    cases pathParts with
    | nil => simp at hlen
    | cons pp ps =>
      have hlen' : rs.length ≤ ps.length := by simpa using hlen
      have hstep : ∀ q : Params,
          matchLoop (pre ++ pp :: ps) rs (pre.length + 1) q = .ok (bindParts rs ps q) := by
        intro q
        have := ih (pre ++ [pp]) ps q hlen'
        simpa using this
      by_cases hp : isParamPart rp = true
      · have hp' := hp
        unfold isParamPart at hp'
        rw [matchLoop, if_pos hp', slice_of_isParamPart hp, index_append_length]
        simp only [hstep, bindParts, hp, if_true]
      · have hp' := hp
        unfold isParamPart at hp'
        rw [matchLoop, if_neg hp', index_append_length]
        by_cases he : rp = pp
        · subst he
          simp [hstep, bindParts, hp]
        · simp [bindParts, hp, he]

/-- `matchRoute` never panics, and it computes `bindParts` on the two segment lists. -/
theorem matchRoute_eq (route path : GoString) :
    matchRoute route path =
      .ok (if (strings.Split route '/').length = (strings.Split path '/').length
        then bindParts (strings.Split route '/') (strings.Split path '/') [] else none) := by
  unfold matchRoute
  by_cases h : (strings.Split route '/').length = (strings.Split path '/').length
  · simp only [h, ne_eq, not_true_eq_false, if_false, if_true]
    have := matchLoop_eq [] (strings.Split route '/') (strings.Split path '/') [] (le_of_eq h)
    simpa using this
  · simp [h]

theorem bindParts_isSome_iff (routeParts pathParts : List GoString) (params : Params) :
    (∃ out, bindParts routeParts pathParts params = some out) ∧
        routeParts.length = pathParts.length ↔
      List.Forall₂ (fun r p => isParamPart r = true ∨ r = p) routeParts pathParts := by
  induction routeParts generalizing pathParts params with
  | nil =>
    cases pathParts with
    | nil => simp [bindParts]
    | cons pp ps => simp [bindParts]
  | cons rp rs ih =>
    cases pathParts with
    | nil => simp [bindParts]
    | cons pp ps =>
      rw [List.forall₂_cons]
      by_cases hp : isParamPart rp = true
      · simp only [bindParts, hp, if_true, List.length_cons, Nat.add_right_cancel_iff, true_or,
          true_and]
        exact ih ps _
      · by_cases he : rp = pp
        · subst he
          simp only [bindParts, hp, if_true, List.length_cons, Nat.add_right_cancel_iff,
            or_true, true_and, Bool.false_eq_true, if_false]
          exact ih ps _
        · simp [bindParts, hp, he]

/-- C1: `matchRoute` reports a match exactly when pattern and path split on `/` into the same
number of segments and, at every position, the pattern segment starts with `{` and ends with
`}` or equals the path segment; and it always returns one of its two results. -/
theorem matchRoute_match_iff (route path : GoString) :
    ((∃ params, matchRoute route path = .ok (some params)) ↔
      (strings.Split route '/').length = (strings.Split path '/').length ∧
        ∀ (i : Nat) (h₁ : i < (strings.Split route '/').length)
          (h₂ : i < (strings.Split path '/').length),
          (strings.HasPrefix ((strings.Split route '/').get ⟨i, h₁⟩) ['{'] = true ∧
              strings.HasSuffix ((strings.Split route '/').get ⟨i, h₁⟩) ['}'] = true) ∨
            (strings.Split route '/').get ⟨i, h₁⟩ = (strings.Split path '/').get ⟨i, h₂⟩) ∧
    (matchRoute route path = .ok none ∨ ∃ params, matchRoute route path = .ok (some params)) := by
  have key := bindParts_isSome_iff (strings.Split route '/') (strings.Split path '/') []
  rw [List.forall₂_iff_get] at key
  have hP : ∀ seg : GoString, (strings.HasPrefix seg ['{'] = true ∧
      strings.HasSuffix seg ['}'] = true) ↔ isParamPart seg = true := by
    intro seg
    unfold isParamPart
    rw [Bool.and_eq_true]
    rfl
  simp only [hP]
  rw [matchRoute_eq]
  constructor
  · by_cases h : (strings.Split route '/').length = (strings.Split path '/').length
    · simp only [h, if_true, Except.ok.injEq, true_and]
      simp only [h, and_true, true_and] at key
      exact key
    · simp [h]
  · cases hb : (if (strings.Split route '/').length = (strings.Split path '/').length
        then bindParts (strings.Split route '/') (strings.Split path '/') [] else none) with
    | none => exact Or.inl rfl
    | some out => exact Or.inr ⟨out, rfl⟩

/-- The result of `matchRoute` as a value: it never panics. -/
theorem matchRoute_total (route path : GoString) : ∃ o, matchRoute route path = .ok o :=
  ⟨_, matchRoute_eq route path⟩

/-! ## `findHandler` and `Router` -/

section RouterLemmas

variable {RW W : Type}

theorem findHandler_eq (order : List (GoString × MethodHandlers RW W)) (method path : GoString) :
    findHandler order method path = .ok (order.findSome? (candidate method path)) := by
  induction order with
  | nil => rfl
  | cons e rest ih =>
    obtain ⟨route, mh⟩ := e
    obtain ⟨o, ho⟩ := matchRoute_total route path
    cases o with
    | none => simp [findHandler, candidate, ho, ih]
    | some params =>
      cases hl : GoMap.lookup mh method with
      | none => simp [findHandler, candidate, ho, hl, ih]
      | some handler => simp [findHandler, candidate, ho, hl]

theorem candidate_eq_some_iff (method path : GoString) (entry : GoString × MethodHandlers RW W)
    (handler : Handler RW W) (params : Params) :
    candidate method path entry = some (handler, params) ↔
      matchRoute entry.1 path = .ok (some params) ∧
        GoMap.lookup entry.2 method = some handler := by
  unfold candidate
  obtain ⟨o, ho⟩ := matchRoute_total entry.1 path
  rw [ho]
  cases o with
  | none => simp
  | some ps =>
    cases hl : GoMap.lookup entry.2 method with
    | none => simp
    | some h' =>
      simp only [Option.some.injEq, Prod.mk.injEq, Except.ok.injEq]
      constructor
      · rintro ⟨rfl, rfl⟩; exact ⟨rfl, rfl⟩
      · rintro ⟨rfl, rfl⟩; exact ⟨rfl, rfl⟩

theorem candidate_eq_none_iff (method path : GoString) (entry : GoString × MethodHandlers RW W) :
    candidate method path entry = none ↔
      matchRoute entry.1 path = .ok none ∨ GoMap.lookup entry.2 method = none := by
  unfold candidate
  obtain ⟨o, ho⟩ := matchRoute_total entry.1 path
  rw [ho]
  cases o with
  | none => simp
  | some ps =>
    cases hl : GoMap.lookup entry.2 method with
    | none => simp
    | some h' => simp

theorem wrapLoop_eq (middlewares : List (Middleware RW W)) (n : Nat)
    (hn : n ≤ middlewares.length) (handler : Handler RW W) :
    wrapLoop middlewares n hn handler = wrapAll (middlewares.take n) handler := by
  induction n generalizing handler with
  | zero => simp [wrapLoop, wrapAll]
  | succ i ih =>
    have hi : i < middlewares.length := hn
    have ht : middlewares.take (i + 1) = middlewares.take i ++ [middlewares.get ⟨i, hi⟩] := by
      rw [List.take_succ, List.getElem?_eq_getElem hi]
      rfl
    rw [wrapLoop, ih, ht]
    unfold wrapAll
    rw [List.foldr_append]
    rfl

theorem wrapLoop_length (middlewares : List (Middleware RW W)) (handler : Handler RW W) :
    wrapLoop middlewares middlewares.length (Nat.le_refl _) handler
      = wrapAll middlewares handler := by
  rw [wrapLoop_eq, List.take_length]

theorem Router_eq (j : Jano RW W) (order : List (GoString × MethodHandlers RW W))
    (paramOrder : Params → List (GoString × GoString)) (w : RW) (r : Request) :
    Router j order paramOrder w r =
      match order.findSome? (candidate r.Method r.Path) with
      | none => j.notFound w r
      | some (handler, params) =>
        wrapAll j.middlewares handler w (setParams r (paramOrder params)) := by
  unfold Router
  rw [findHandler_eq]
  cases order.findSome? (candidate r.Method r.Path) with
  | none => rfl
  | some hp =>
    obtain ⟨handler, params⟩ := hp
    simp only [wrapLoop_length]

theorem Router_of_found (j : Jano RW W) (order : List (GoString × MethodHandlers RW W))
    (paramOrder : Params → List (GoString × GoString)) (w : RW) (r : Request)
    (handler : Handler RW W) (params : Params)
    (hfound : findHandler order r.Method r.Path = .ok (some (handler, params))) :
    Router j order paramOrder w r =
      wrapAll j.middlewares handler w (setParams r (paramOrder params)) := by
  rw [findHandler_eq] at hfound
  rw [Router_eq, Except.ok.inj hfound]

theorem Router_of_not_found (j : Jano RW W) (order : List (GoString × MethodHandlers RW W))
    (paramOrder : Params → List (GoString × GoString)) (w : RW) (r : Request)
    (hnone : findHandler order r.Method r.Path = .ok none) :
    Router j order paramOrder w r = j.notFound w r := by
  rw [findHandler_eq] at hnone
  rw [Router_eq, Except.ok.inj hnone]

theorem middlewares_foldl_Use (j : Jano RW W) (ms : List (Middleware RW W)) :
    (ms.foldl Use j).middlewares = j.middlewares ++ ms ∧ (ms.foldl Use j).routes = j.routes ∧
      (ms.foldl Use j).notFound = j.notFound := by
  induction ms generalizing j with
  | nil => simp
  | cons m ms ih =>
    obtain ⟨h1, h2, h3⟩ := ih (Use j m)
    simp only [List.foldl_cons, h1, h2, h3]
    simp [Use]

end RouterLemmas

/-! ## The bound parameters -/

theorem name_eq_iff {seg : GoString} (h : isParamPart seg = true) (name : GoString) :
    (seg.drop 1).take (seg.length - 2) = name ↔ seg = paramPart name := by
  obtain ⟨n, rfl⟩ := (isParamPart_iff seg).mp h
  rw [name_paramPart]
  constructor
  · rintro rfl; rfl
  · intro h; exact paramPart_injective h

theorem bindParts_lookup (routeParts pathParts : List GoString) (params out : Params)
    (h : bindParts routeParts pathParts params = some out) (name : GoString) :
    GoMap.lookup out name =
      match lastBinding routeParts pathParts name with
      | some v => some v
      | none => GoMap.lookup params name := by
  induction routeParts generalizing pathParts params with
  | nil =>
    simp only [bindParts, Option.some.injEq] at h
    subst h
    cases pathParts <;> simp [lastBinding]
  | cons rp rs ih =>
    cases pathParts with
    | nil => simp [bindParts] at h
    | cons pp ps =>
      by_cases hp : isParamPart rp = true
      · simp only [bindParts, hp, if_true] at h
        rw [ih ps _ h]
        simp only [lastBinding]
        cases lastBinding rs ps name with
        | some v => rfl
        | none =>
          simp only [GoMap.lookup_set, name_eq_iff hp]
          by_cases he : rp = paramPart name <;> simp [he]
      · have hne : rp ≠ paramPart name := by
          rintro rfl
          exact hp (isParamPart_paramPart name)
        by_cases he : rp = pp
        · subst he
          simp only [bindParts, hp, if_true, Bool.false_eq_true, if_false] at h
          rw [ih ps _ h]
          simp only [lastBinding]
          cases lastBinding rs ps name with
          | some v => rfl
          | none => simp [hne]
        · simp [bindParts, hp, he] at h

theorem bindParts_nodup (routeParts pathParts : List GoString) (params out : Params)
    (h : bindParts routeParts pathParts params = some out)
    (hnd : (GoMap.keys params).Nodup) : (GoMap.keys out).Nodup := by
  induction routeParts generalizing pathParts params with
  | nil =>
    simp only [bindParts, Option.some.injEq] at h
    subst h
    exact hnd
  | cons rp rs ih =>
    cases pathParts with
    | nil => simp [bindParts] at h
    | cons pp ps =>
      by_cases hp : isParamPart rp = true
      · simp only [bindParts, hp, if_true] at h
        exact ih ps _ h (GoMap.nodup_keys_set hnd _ _)
      · by_cases he : rp = pp
        · subst he
          simp only [bindParts, hp, if_true, Bool.false_eq_true, if_false] at h
          exact ih ps _ h hnd
        · simp [bindParts, hp, he] at h

theorem matchRoute_some_iff (route path : GoString) (params : Params) :
    matchRoute route path = .ok (some params) ↔
      (strings.Split route '/').length = (strings.Split path '/').length ∧
        bindParts (strings.Split route '/') (strings.Split path '/') [] = some params := by
  rw [matchRoute_eq]
  by_cases h : (strings.Split route '/').length = (strings.Split path '/').length
  · simp [h]
  · simp [h]

theorem matchRoute_nodup {route path : GoString} {params : Params}
    (h : matchRoute route path = .ok (some params)) : (GoMap.keys params).Nodup :=
  bindParts_nodup _ _ [] params ((matchRoute_some_iff route path params).mp h).2
    (by simp [GoMap.keys])

theorem matchRoute_lookup {route path : GoString} {params : Params}
    (h : matchRoute route path = .ok (some params)) (name : GoString) :
    GoMap.lookup params name =
      lastBinding (strings.Split route '/') (strings.Split path '/') name := by
  rw [bindParts_lookup _ _ [] params ((matchRoute_some_iff route path params).mp h).2 name]
  cases lastBinding (strings.Split route '/') (strings.Split path '/') name <;> simp [GoMap.lookup]

theorem lastBinding_eq_none (routeParts pathParts : List GoString) (name : GoString)
    (h : ∀ j : Nat, routeParts[j]? ≠ some (paramPart name)) :
    lastBinding routeParts pathParts name = none := by
  induction routeParts generalizing pathParts with
  | nil => cases pathParts <;> simp [lastBinding]
  | cons rp rs ih =>
    cases pathParts with
    | nil => simp [lastBinding]
    | cons pp ps =>
      have h0 : rp ≠ paramPart name := by
        have := h 0
        simpa using this
      have hrest : ∀ j : Nat, rs[j]? ≠ some (paramPart name) := by
        intro j
        have := h (j + 1)
        simpa using this
      simp [lastBinding, ih ps hrest, h0]

theorem lastBinding_of_last (routeParts pathParts : List GoString) (name v : GoString)
    (i : Nat) (hr : routeParts[i]? = some (paramPart name)) (hv : pathParts[i]? = some v)
    (hlast : ∀ j : Nat, i < j → routeParts[j]? ≠ some (paramPart name)) :
    lastBinding routeParts pathParts name = some v := by
  induction routeParts generalizing pathParts i with
  | nil => simp at hr
  | cons rp rs ih =>
    cases pathParts with
    | nil => simp at hv
    | cons pp ps =>
      cases i with
      | zero =>
        simp only [List.getElem?_cons_zero, Option.some.injEq] at hr hv
        have hrest : ∀ j : Nat, rs[j]? ≠ some (paramPart name) := by
          intro j
          have := hlast (j + 1) (Nat.succ_pos j)
          simpa using this
        simp [lastBinding, lastBinding_eq_none rs ps name hrest, hr, hv]
      | succ i =>
        simp only [List.getElem?_cons_succ] at hr hv
        have hrest : ∀ j : Nat, i < j → rs[j]? ≠ some (paramPart name) := by
          intro j hj
          have := hlast (j + 1) (Nat.succ_lt_succ hj)
          simpa using this
        simp [lastBinding, ih ps i hr hv hrest]

/-! ## `setParams` -/

theorem Value_foldl_of_not_mem (order : List (GoString × GoString)) (ctx : Context) (key : GoAny)
    (h : ∀ kv ∈ order, GoAny.str kv.1 ≠ key) :
    Context.Value
        (order.foldl (fun ctx kv => Context.WithValue ctx (.str kv.1) (.str kv.2)) ctx) key
      = Context.Value ctx key := by
  induction order generalizing ctx with
  | nil => rfl
  | cons e rest ih =>
    rw [List.foldl_cons, ih _ (fun kv hkv => h kv (List.mem_cons_of_mem _ hkv))]
    simp [Context.WithValue, Context.Value, h e (List.mem_cons_self _ _)]

theorem Value_foldl_of_mem (order : List (GoString × GoString))
    (hnd : (GoMap.keys order).Nodup) (ctx : Context) (k v : GoString) (h : (k, v) ∈ order) :
    Context.Value
        (order.foldl (fun ctx kv => Context.WithValue ctx (.str kv.1) (.str kv.2)) ctx)
        (.str k)
      = some (.str v) := by
  induction order generalizing ctx with
  | nil => simp at h
  | cons e rest ih =>
    simp only [GoMap.keys, List.map_cons, List.nodup_cons] at hnd
    rw [List.foldl_cons]
    by_cases hmem : (k, v) ∈ rest
    · exact ih hnd.2 _ hmem
    · have he : e = (k, v) := by
        rcases List.mem_cons.mp h with h | h
        · exact h.symm
        · exact absurd h hmem
      subst he
      rw [Value_foldl_of_not_mem]
      · simp [Context.WithValue, Context.Value]
      · intro kv hkv hc
        have : kv.1 = k := by simpa using hc
        exact hnd.1 (List.mem_map.mpr ⟨kv, hkv, this⟩)

theorem setParams_Value_bound (r : Request) (params order : List (GoString × GoString))
    (hperm : order.Perm params) (hnd : (GoMap.keys params).Nodup) (k v : GoString)
    (h : GoMap.lookup params k = some v) :
    Context.Value (setParams r order).Context (.str k) = some (.str v) := by
  have hnd' : (GoMap.keys order).Nodup := (List.Perm.nodup_iff (hperm.map Prod.fst)).mpr hnd
  exact Value_foldl_of_mem order hnd' _ k v (hperm.mem_iff.mpr (GoMap.mem_of_lookup h))

theorem setParams_Value_unbound (r : Request) (params order : List (GoString × GoString))
    (hperm : order.Perm params) (key : GoAny)
    (h : ∀ k, key = .str k → GoMap.lookup params k = none) :
    Context.Value (setParams r order).Context key = Context.Value r.Context key := by
  refine Value_foldl_of_not_mem order _ key ?_
  intro kv hkv hc
  have hnone := h kv.1 hc.symm
  rw [GoMap.lookup_eq_none_iff] at hnone
  exact hnone (List.mem_map.mpr ⟨kv, hperm.mem_iff.mp hkv, rfl⟩)

/-! ## Middleware order (C2) -/

section Claims

variable {RW W : Type}

/-- C2, as stated, fails: with `M1` registered before `M2` the log of a matched request reads
`M1, M2, handler, M2, M1`; it is not `M2, M1, handler, M1, M2`, and the handler invoked is not
`M2 (M1 h)`. -/
theorem onion_last_registered_outermost_fails :
    Router onionRouter onionRouter.routes (fun ps => ps) () (getRequest "/x") []
        = .ok [.enter 1, .enter 2, .handled 0, .leave 2, .leave 1] ∧
      Router onionRouter onionRouter.routes (fun ps => ps) () (getRequest "/x") []
        ≠ .ok [.enter 2, .enter 1, .handled 0, .leave 1, .leave 2] ∧
      Router onionRouter onionRouter.routes (fun ps => ps) () (getRequest "/x") []
        ≠ (logMiddleware 2 (logMiddleware 1 (logHandler 0))) ()
            (setParams (getRequest "/x") []) [] := by
  decide

/-- C2, amended: for middleware `m1 .. mn` registered in this order with `Use` on a router that
had none, the handler `Router` invokes for a matched handler `h` is `m1 (m2 (.. (mn h)))`: the
first-registered middleware is outermost and the last-registered is innermost. -/
theorem Router_first_registered_outermost (j : Jano RW W) (hnone : j.middlewares = [])
    (ms : List (Middleware RW W)) (order : List (GoString × MethodHandlers RW W))
    (paramOrder : Params → List (GoString × GoString)) (w : RW) (r : Request)
    (handler : Handler RW W) (params : Params)
    (hfound : findHandler order r.Method r.Path = .ok (some (handler, params))) :
    Router (ms.foldl Use j) order paramOrder w r =
      (ms.foldr (fun m wrapped => m wrapped) handler) w (setParams r (paramOrder params)) := by
  rw [Router_of_found _ order paramOrder w r handler params hfound,
    (middlewares_foldl_Use j ms).1, hnone]
  rfl

/-- The amended C2 at `M1`, `M2` on `GET /x`: the log reads `M1, M2, handler, M2, M1`. -/
theorem Router_first_registered_outermost_witness :
    xRouter.middlewares = [] ∧
      Router ([logMiddleware 1, logMiddleware 2].foldl Use xRouter) xRouter.routes (fun ps => ps)
          () (getRequest "/x") = (logMiddleware 1 (logMiddleware 2 (logHandler 0))) ()
            (setParams (getRequest "/x") []) ∧
      (logMiddleware 1 (logMiddleware 2 (logHandler 0))) () (setParams (getRequest "/x") []) []
        = .ok [.enter 1, .enter 2, .handled 0, .leave 2, .leave 1] :=
  ⟨rfl,
    Router_first_registered_outermost xRouter rfl [logMiddleware 1, logMiddleware 2]
      xRouter.routes (fun ps => ps) () (getRequest "/x") (logHandler 0) [] rfl,
    by decide⟩

end Claims

/-! ## Lookup (C6) and dispatch of a registered route (C3) -/

section Lookup

variable {RW W : Type}

theorem findSome_candidate_unique (order : List (GoString × MethodHandlers RW W))
    (method path : GoString) (entry : GoString × MethodHandlers RW W)
    (handler : Handler RW W) (params : Params) (hmem : entry ∈ order)
    (hentry : candidate method path entry = some (handler, params))
    (hothers : ∀ e ∈ order, e ≠ entry → candidate method path e = none) :
    order.findSome? (candidate method path) = some (handler, params) := by
  induction order with
  | nil => simp at hmem
  | cons e rest ih =>
    by_cases he : e = entry
    · subst he
      simp [List.findSome?, hentry]
    · have hnone := hothers e (List.mem_cons_self _ _) he
      have hmem' : entry ∈ rest := by
        rcases List.mem_cons.mp hmem with h | h
        · exact absurd h.symm he
        · exact h
      simp only [List.findSome?, hnone]
      exact ih hmem' (fun e' he' => hothers e' (List.mem_cons_of_mem _ he'))

/-- C6: `findHandler` reports found exactly when some registered pattern matches the path and
has a handler for the method; a matching pattern without the method does not stop the search;
when found, handler and parameters are those of one such pattern; it never panics. All of this
for every visiting order of the table. -/
theorem findHandler_found_iff (j : Jano RW W) (order : List (GoString × MethodHandlers RW W))
    (horder : order.Perm j.routes) (method path : GoString) :
    ((∃ handler params, findHandler order method path = .ok (some (handler, params))) ↔
      ∃ route methodHandlers, (route, methodHandlers) ∈ j.routes ∧
        (∃ params, matchRoute route path = .ok (some params)) ∧
        (∃ handler, GoMap.lookup methodHandlers method = some handler)) ∧
    (∀ handler params, findHandler order method path = .ok (some (handler, params)) →
      ∃ route methodHandlers, (route, methodHandlers) ∈ j.routes ∧
        matchRoute route path = .ok (some params) ∧
        GoMap.lookup methodHandlers method = some handler) ∧
    (∀ (route : GoString) (methodHandlers : MethodHandlers RW W)
        (rest : List (GoString × MethodHandlers RW W)),
      GoMap.lookup methodHandlers method = none →
      findHandler ((route, methodHandlers) :: rest) method path
        = findHandler rest method path) ∧
    (findHandler order method path = .ok none ∨
      ∃ handler params, findHandler order method path = .ok (some (handler, params))) := by
  have hsound : ∀ handler params,
      findHandler order method path = .ok (some (handler, params)) →
      ∃ route methodHandlers, (route, methodHandlers) ∈ j.routes ∧
        matchRoute route path = .ok (some params) ∧
        GoMap.lookup methodHandlers method = some handler := by
    intro handler params h
    rw [findHandler_eq] at h
    obtain ⟨l₁, e, l₂, hl, he, _⟩ := List.findSome?_eq_some_iff.mp (Except.ok.inj h)
    have hmem : e ∈ j.routes := horder.mem_iff.mp (by rw [hl]; simp)
    obtain ⟨h1, h2⟩ := (candidate_eq_some_iff method path e handler params).mp he
    exact ⟨e.1, e.2, hmem, h1, h2⟩
  refine ⟨⟨?_, ?_⟩, hsound, ?_, ?_⟩
  · rintro ⟨handler, params, h⟩
    obtain ⟨route, mh, hmem, h1, h2⟩ := hsound handler params h
    exact ⟨route, mh, hmem, ⟨params, h1⟩, ⟨handler, h2⟩⟩
  · rintro ⟨route, mh, hmem, ⟨params, h1⟩, ⟨handler, h2⟩⟩
    rw [findHandler_eq]
    cases hf : order.findSome? (candidate method path) with
    | none =>
      have := List.findSome?_eq_none_iff.mp hf (route, mh) (horder.mem_iff.mpr hmem)
      rw [(candidate_eq_some_iff method path (route, mh) handler params).mpr ⟨h1, h2⟩] at this
      exact absurd this (by simp)
    | some hp => exact ⟨hp.1, hp.2, rfl⟩
  · intro route mh rest hl
    obtain ⟨o, ho⟩ := matchRoute_total route path
    cases o <;> simp [findHandler, ho, hl]
  · rw [findHandler_eq]
    cases order.findSome? (candidate method path) with
    | none => exact Or.inl rfl
    | some hp => exact Or.inr ⟨hp.1, hp.2, rfl⟩

/-- C6 at `GET /people/new` on the router with `/people/{id}` and `/people/new`. -/
theorem findHandler_found_iff_witness :
    List.Perm peopleRouter.routes peopleRouter.routes ∧
    ((∃ handler params, findHandler peopleRouter.routes "GET".toList "/people/new".toList
        = .ok (some (handler, params))) ↔
      ∃ route methodHandlers, (route, methodHandlers) ∈ peopleRouter.routes ∧
        (∃ params, matchRoute route "/people/new".toList = .ok (some params)) ∧
        (∃ handler, GoMap.lookup methodHandlers "GET".toList = some handler)) :=
  ⟨List.Perm.refl _,
    (findHandler_found_iff peopleRouter peopleRouter.routes (List.Perm.refl _) "GET".toList
      "/people/new".toList).1⟩

/-- C3, as stated, fails: `GET /people/new` is registered with handler 2 and the path
`/people/new` equals its pattern, yet in the visiting order that has `/people/{id}` first the
dispatch invokes handler 1. -/
theorem dispatch_registered_handler_fails :
    List.Perm peopleRouter.routes peopleRouter.routes ∧
      (GoMap.lookup peopleRouter.routes "/people/new".toList).bind
          (fun mh => GoMap.lookup mh "GET".toList) = some (logHandler 2) ∧
      matchRoute "/people/new".toList "/people/new".toList = .ok (some []) ∧
      Router peopleRouter peopleRouter.routes (fun ps => ps) () (getRequest "/people/new") []
        = .ok [.handled 1] ∧
      Router peopleRouter peopleRouter.routes (fun ps => ps) () (getRequest "/people/new") []
        ≠ logHandler 2 () (setParams (getRequest "/people/new") []) [] :=
  ⟨List.Perm.refl _, rfl, by decide, by decide, by decide⟩

theorem Router_of_unique_candidate (j : Jano RW W) (hkeys : (GoMap.keys j.routes).Nodup)
    (order : List (GoString × MethodHandlers RW W)) (horder : order.Perm j.routes)
    (paramOrder : Params → List (GoString × GoString))
    (hparamOrder : ∀ ps, (paramOrder ps).Perm ps) (w : RW) (r : Request)
    (pattern : GoString) (methodHandlers : MethodHandlers RW W) (handler : Handler RW W)
    (params : Params)
    (hreg : GoMap.lookup j.routes pattern = some methodHandlers)
    (hhandler : GoMap.lookup methodHandlers r.Method = some handler)
    (hmatch : matchRoute pattern r.Path = .ok (some params))
    (hothers : ∀ p mh, p ≠ pattern → GoMap.lookup j.routes p = some mh →
      matchRoute p r.Path = .ok none ∨ GoMap.lookup mh r.Method = none) :
    findHandler order r.Method r.Path = .ok (some (handler, params)) ∧
      Router j order paramOrder w r
        = wrapAll j.middlewares handler w (setParams r (paramOrder params)) ∧
      ∀ name value, GoMap.lookup params name = some value →
        Context.Value (setParams r (paramOrder params)).Context (.str name)
          = some (.str value) := by
  have hfound : findHandler order r.Method r.Path = .ok (some (handler, params)) := by
    rw [findHandler_eq]
    congr 1
    refine findSome_candidate_unique order r.Method r.Path (pattern, methodHandlers) handler
      params (horder.mem_iff.mpr (GoMap.mem_of_lookup hreg))
      ((candidate_eq_some_iff _ _ _ _ _).mpr ⟨hmatch, hhandler⟩) ?_
    intro e he hne
    have hmem : (e.1, e.2) ∈ j.routes := horder.mem_iff.mp he
    have hl := GoMap.lookup_of_mem hkeys hmem
    rw [candidate_eq_none_iff]
    by_cases hp : e.1 = pattern
    · rw [hp, hreg] at hl
      exact absurd (Prod.ext hp (Option.some.inj hl).symm) hne
    · exact hothers e.1 e.2 hp hl
  refine ⟨hfound, Router_of_found j order paramOrder w r handler params hfound, ?_⟩
  intro name value hl
  exact setParams_Value_bound r params _ (hparamOrder params) (matchRoute_nodup hmatch) name
    value hl

/-- C3, amended: for a registered (method, pattern, handler) and a path the pattern matches,
when every other registered pattern fails to match the path or has no handler for the method,
the dispatch of (method, path) invokes that handler (inside the middleware chain) on the
request with the parameters of that pattern attached, each readable by name; in every visiting
order of the table and of the parameters. -/
theorem Router_dispatch_registered (j : Jano RW W) (hkeys : (GoMap.keys j.routes).Nodup)
    (order : List (GoString × MethodHandlers RW W)) (horder : order.Perm j.routes)
    (paramOrder : Params → List (GoString × GoString))
    (hparamOrder : ∀ ps, (paramOrder ps).Perm ps) (w : RW) (r : Request)
    (pattern : GoString) (methodHandlers : MethodHandlers RW W) (handler : Handler RW W)
    (params : Params)
    (hreg : GoMap.lookup j.routes pattern = some methodHandlers)
    (hhandler : GoMap.lookup methodHandlers r.Method = some handler)
    (hmatch : matchRoute pattern r.Path = .ok (some params))
    (hothers : ∀ p mh, p ≠ pattern → GoMap.lookup j.routes p = some mh →
      matchRoute p r.Path = .ok none ∨ GoMap.lookup mh r.Method = none) :
    findHandler order r.Method r.Path = .ok (some (handler, params)) ∧
      Router j order paramOrder w r
        = wrapAll j.middlewares handler w (setParams r (paramOrder params)) ∧
      ∀ name value, GoMap.lookup params name = some value →
        Context.Value (setParams r (paramOrder params)).Context (.str name)
          = some (.str value) :=
  Router_of_unique_candidate j hkeys order horder paramOrder hparamOrder w r pattern
    methodHandlers handler params hreg hhandler hmatch hothers

theorem peopleRouter_routes :
    peopleRouter.routes =
      [("/people/{id}".toList, [("GET".toList, logHandler 1)]),
        ("/people/new".toList, [("GET".toList, logHandler 2)])] := rfl

/-- The amended C3 at `GET /people/42` on the router with `/people/{id}` and `/people/new`:
handler 1 runs and `id` reads `42`. -/
theorem Router_dispatch_registered_witness :
    findHandler peopleRouter.routes (getRequest "/people/42").Method
        (getRequest "/people/42").Path
        = .ok (some (logHandler 1, [("id".toList, "42".toList)])) ∧
      Router peopleRouter peopleRouter.routes (fun ps => ps) () (getRequest "/people/42")
        = wrapAll peopleRouter.middlewares (logHandler 1) ()
            (setParams (getRequest "/people/42") [("id".toList, "42".toList)]) ∧
      ∀ name value, GoMap.lookup [("id".toList, "42".toList)] name = some value →
        Context.Value
            (setParams (getRequest "/people/42") [("id".toList, "42".toList)]).Context
            (.str name)
          = some (.str value) :=
  Router_dispatch_registered peopleRouter (by decide) peopleRouter.routes (List.Perm.refl _)
    (fun ps => ps) (fun ps => List.Perm.refl ps) () (getRequest "/people/42")
    "/people/{id}".toList [("GET".toList, logHandler 1)] (logHandler 1)
    [("id".toList, "42".toList)] rfl rfl (by decide)
    (by
      intro p mh hp hl
      rw [peopleRouter_routes] at hl
      simp only [GoMap.lookup] at hl
      rw [if_neg (fun h => hp h.symm)] at hl
      by_cases h2 : "/people/new".toList = p
      · subst h2
        exact Or.inl (by decide)
      · rw [if_neg h2] at hl
        exact absurd hl (by simp))

end Lookup

/-! ## The values bound by `matchRoute` (C4) and read by the handler (C5) -/

/-- C4, as stated, fails: the pattern `/{id}/{id}` matches `/a/b`; its segment at position 1
is `{id}` and the path segment there is `a`, but the returned map sends `id` to `b`. -/
theorem matchRoute_binds_every_position_fails :
    matchRoute "/{id}/{id}".toList "/a/b".toList = .ok (some [("id".toList, "b".toList)]) ∧
      (strings.Split "/{id}/{id}".toList '/')[1]? = some (paramPart "id".toList) ∧
      (strings.Split "/a/b".toList '/')[1]? = some "a".toList ∧
      GoMap.lookup [("id".toList, "b".toList)] "id".toList ≠ some "a".toList := by
  decide

theorem matchRoute_lookup_of_last (route path : GoString) (params : Params)
    (hmatch : matchRoute route path = .ok (some params)) (i : Nat) (name value : GoString)
    (hseg : (strings.Split route '/')[i]? = some (paramPart name))
    (hval : (strings.Split path '/')[i]? = some value)
    (hlast : ∀ k : Nat, i < k → (strings.Split route '/')[k]? ≠ some (paramPart name)) :
    GoMap.lookup params name = some value := by
  rw [matchRoute_lookup hmatch name]
  exact lastBinding_of_last _ _ name value i hseg hval hlast

/-- C4, amended: whenever `matchRoute` succeeds, for every position `i` whose pattern segment
is `{name}` and after which no position has the segment `{name}` again, the returned map
sends `name` to the `i`-th segment of the path. -/
theorem matchRoute_binds_last_position (route path : GoString) (params : Params)
    (hmatch : matchRoute route path = .ok (some params)) (i : Nat) (name value : GoString)
    (hseg : (strings.Split route '/')[i]? = some (paramPart name))
    (hval : (strings.Split path '/')[i]? = some value)
    (hlast : ∀ k : Nat, i < k → (strings.Split route '/')[k]? ≠ some (paramPart name)) :
    GoMap.lookup params name = some value :=
  matchRoute_lookup_of_last route path params hmatch i name value hseg hval hlast

/-- The amended C4 at `/{id}/{id}` and `/a/b`, position 2. -/
theorem matchRoute_binds_last_position_witness :
    matchRoute "/{id}/{id}".toList "/a/b".toList = .ok (some [("id".toList, "b".toList)]) ∧
      GoMap.lookup [("id".toList, "b".toList)] "id".toList = some "b".toList :=
  ⟨by decide,
    matchRoute_binds_last_position "/{id}/{id}".toList "/a/b".toList
      [("id".toList, "b".toList)] (by decide) 2 "id".toList "b".toList (by decide) (by decide)
      (by
        intro k hk
        have hs : strings.Split "/{id}/{id}".toList '/' = [[], "{id}".toList, "{id}".toList] := by
          decide
        rw [hs]
        have : ([[], "{id}".toList, "{id}".toList] : List GoString)[k]? = none :=
          List.getElem?_eq_none (by simpa using hk)
        rw [this]
        simp)⟩

theorem mem_names_of_getElem? (l : List GoString) (i : Nat) (name : GoString)
    (h : l[i]? = some (paramPart name)) :
    name ∈ (l.filter isParamPart).map (fun seg => (seg.drop 1).take (seg.length - 2)) :=
  List.mem_map.mpr ⟨paramPart name,
    List.mem_filter.mpr ⟨List.getElem?_mem h, isParamPart_paramPart name⟩, name_paramPart name⟩

theorem mem_paramNames {pattern name : GoString} {i : Nat}
    (h : (strings.Split pattern '/')[i]? = some (paramPart name)) :
    name ∈ paramNames pattern :=
  mem_names_of_getElem? _ i name h

theorem last_of_nodup_names (l : List GoString)
    (hnd : ((l.filter isParamPart).map (fun seg => (seg.drop 1).take (seg.length - 2))).Nodup)
    (i : Nat) (name : GoString) (h : l[i]? = some (paramPart name)) :
    ∀ k : Nat, i < k → l[k]? ≠ some (paramPart name) := by
  induction l generalizing i with
  | nil => simp at h
  | cons seg rest ih =>
    have hrest : ((rest.filter isParamPart).map
        (fun seg => (seg.drop 1).take (seg.length - 2))).Nodup := by
      by_cases hp : isParamPart seg = true
      · rw [List.filter_cons_of_pos hp, List.map_cons, List.nodup_cons] at hnd
        exact hnd.2
      · rw [List.filter_cons_of_neg hp] at hnd
        exact hnd
    intro k hk
    cases k with
    | zero => omega
    | succ k =>
      rw [List.getElem?_cons_succ]
      cases i with
      | zero =>
        simp only [List.getElem?_cons_zero, Option.some.injEq] at h
        subst h
        rw [List.filter_cons_of_pos (isParamPart_paramPart name), List.map_cons,
          List.nodup_cons, name_paramPart] at hnd
        intro hc
        exact hnd.1 (mem_names_of_getElem? rest k name hc)
      | succ i =>
        rw [List.getElem?_cons_succ] at h
        exact ih hrest i h k (by omega)

section Binding

variable {RW W : Type}

/-- C5: on a router whose only pattern `P` has pairwise distinct parameter names and a handler
for the method, the dispatch of a path that `P` matches invokes that handler (inside the
middleware chain) on the request with method and path unchanged, in whose context every
parameter name of `P` reads the path segment at the position of that parameter, and every key
that is not a parameter name of `P` reads what it read before. -/
theorem Router_single_pattern_context (j : Jano RW W) (P : GoString)
    (methodHandlers : MethodHandlers RW W) (hroutes : j.routes = [(P, methodHandlers)])
    (hdistinct : (paramNames P).Nodup)
    (order : List (GoString × MethodHandlers RW W)) (horder : order.Perm j.routes)
    (paramOrder : Params → List (GoString × GoString))
    (hparamOrder : ∀ ps, (paramOrder ps).Perm ps) (w : RW) (r : Request)
    (handler : Handler RW W) (hhandler : GoMap.lookup methodHandlers r.Method = some handler)
    (params : Params) (hmatch : matchRoute P r.Path = .ok (some params)) :
    Router j order paramOrder w r
        = wrapAll j.middlewares handler w (setParams r (paramOrder params)) ∧
      (setParams r (paramOrder params)).Method = r.Method ∧
      (setParams r (paramOrder params)).Path = r.Path ∧
      (∀ (i : Nat) (name value : GoString),
        (strings.Split P '/')[i]? = some (paramPart name) →
        (strings.Split r.Path '/')[i]? = some value →
        Context.Value (setParams r (paramOrder params)).Context (.str name)
          = some (.str value)) ∧
      (∀ key : GoAny, (∀ name ∈ paramNames P, key ≠ .str name) →
        Context.Value (setParams r (paramOrder params)).Context key
          = Context.Value r.Context key) := by
  have hreg : GoMap.lookup j.routes P = some methodHandlers := by
    rw [hroutes]; simp [GoMap.lookup]
  have hkeys : (GoMap.keys j.routes).Nodup := by
    rw [hroutes]; simp [GoMap.keys]
  have hothers : ∀ p mh, p ≠ P → GoMap.lookup j.routes p = some mh →
      matchRoute p r.Path = .ok none ∨ GoMap.lookup mh r.Method = none := by
    intro p mh hp hl
    rw [hroutes] at hl
    simp only [GoMap.lookup] at hl
    rw [if_neg (fun h => hp h.symm)] at hl
    exact absurd hl (by simp)
  obtain ⟨_, hrouter, hbound⟩ := Router_of_unique_candidate j hkeys order horder paramOrder
    hparamOrder w r P methodHandlers handler params hreg hhandler hmatch hothers
  refine ⟨hrouter, rfl, rfl, ?_, ?_⟩
  · intro i name value hseg hval
    refine hbound name value ?_
    exact matchRoute_lookup_of_last P r.Path params hmatch i name value hseg hval
      (last_of_nodup_names _ hdistinct i name hseg)
  · intro key hkey
    refine setParams_Value_unbound r params _ (hparamOrder params) key ?_
    intro k hk
    rw [matchRoute_lookup hmatch k]
    refine lastBinding_eq_none _ _ k ?_
    intro i hc
    exact hkey k (mem_paramNames hc) hk

/-- C5 at `/people/{id}` with `/people/42` (`id` reads `42`, the value stored before under
another key is still there) and at `/v1/{v1}/{v2}/{v3}/{v4}/{v5}` with `/v1/1/2/3/4/5`
(`v1` .. `v5` read `1` .. `5`). -/
theorem Router_single_pattern_context_witness :
    (Context.Value
        (setParams (getRequest "/people/42") [("id".toList, "42".toList)]).Context
        (.str "id".toList) = some (.str "42".toList) ∧
      Context.Value
        (setParams (getRequest "/people/42") [("id".toList, "42".toList)]).Context
        (.other 7) = Context.Value (getRequest "/people/42").Context (.other 7)) ∧
    (Context.Value
        (setParams (getRequest "/v1/1/2/3/4/5")
          [("v1".toList, "1".toList), ("v2".toList, "2".toList), ("v3".toList, "3".toList),
            ("v4".toList, "4".toList), ("v5".toList, "5".toList)]).Context
        (.str "v1".toList) = some (.str "1".toList) ∧
      Context.Value
        (setParams (getRequest "/v1/1/2/3/4/5")
          [("v1".toList, "1".toList), ("v2".toList, "2".toList), ("v3".toList, "3".toList),
            ("v4".toList, "4".toList), ("v5".toList, "5".toList)]).Context
        (.str "v2".toList) = some (.str "2".toList) ∧
      Context.Value
        (setParams (getRequest "/v1/1/2/3/4/5")
          [("v1".toList, "1".toList), ("v2".toList, "2".toList), ("v3".toList, "3".toList),
            ("v4".toList, "4".toList), ("v5".toList, "5".toList)]).Context
        (.str "v3".toList) = some (.str "3".toList) ∧
      Context.Value
        (setParams (getRequest "/v1/1/2/3/4/5")
          [("v1".toList, "1".toList), ("v2".toList, "2".toList), ("v3".toList, "3".toList),
            ("v4".toList, "4".toList), ("v5".toList, "5".toList)]).Context
        (.str "v4".toList) = some (.str "4".toList) ∧
      Context.Value
        (setParams (getRequest "/v1/1/2/3/4/5")
          [("v1".toList, "1".toList), ("v2".toList, "2".toList), ("v3".toList, "3".toList),
            ("v4".toList, "4".toList), ("v5".toList, "5".toList)]).Context
        (.str "v5".toList) = some (.str "5".toList)) :=
  have h1 := Router_single_pattern_context personRouter "/people/{id}".toList
    [("GET".toList, logHandler 1)] rfl (by decide) personRouter.routes (List.Perm.refl _)
    (fun ps => ps) (fun ps => List.Perm.refl ps) () (getRequest "/people/42") (logHandler 1)
    rfl [("id".toList, "42".toList)] (by decide)
  have h2 := Router_single_pattern_context manyVarsRouter
    "/v1/{v1}/{v2}/{v3}/{v4}/{v5}".toList [("GET".toList, logHandler 0)] rfl (by decide)
    manyVarsRouter.routes (List.Perm.refl _) (fun ps => ps) (fun ps => List.Perm.refl ps) ()
    (getRequest "/v1/1/2/3/4/5") (logHandler 0) rfl
    [("v1".toList, "1".toList), ("v2".toList, "2".toList), ("v3".toList, "3".toList),
      ("v4".toList, "4".toList), ("v5".toList, "5".toList)] (by decide)
  ⟨⟨h1.2.2.2.1 2 "id".toList "42".toList (by decide) (by decide),
      h1.2.2.2.2 (.other 7) (fun _ _ h => GoAny.noConfusion h)⟩,
    ⟨h2.2.2.2.1 2 "v1".toList "1".toList (by decide) (by decide),
      h2.2.2.2.1 3 "v2".toList "2".toList (by decide) (by decide),
      h2.2.2.2.1 4 "v3".toList "3".toList (by decide) (by decide),
      h2.2.2.2.1 5 "v4".toList "4".toList (by decide) (by decide),
      h2.2.2.2.1 6 "v5".toList "5".toList (by decide) (by decide)⟩⟩

/-! ## Requests that are not found (C7) -/

/-- C7: when the segment count of the path differs from the segment count of every registered
pattern, the lookup finds nothing and the dispatch, for every method, is the not-found handler
and no registered handler. -/
theorem Router_not_found_of_segment_count (j : Jano RW W)
    (order : List (GoString × MethodHandlers RW W)) (horder : order.Perm j.routes)
    (paramOrder : Params → List (GoString × GoString)) (w : RW) (r : Request)
    (hcount : ∀ route methodHandlers, (route, methodHandlers) ∈ j.routes →
      (strings.Split route '/').length ≠ (strings.Split r.Path '/').length) :
    findHandler order r.Method r.Path = .ok none ∧
      Router j order paramOrder w r = j.notFound w r := by
  have hnone : findHandler order r.Method r.Path = .ok none := by
    rw [findHandler_eq]
    congr 1
    rw [List.findSome?_eq_none_iff]
    intro e he
    rw [candidate_eq_none_iff]
    left
    rw [matchRoute_eq, if_neg (hcount e.1 e.2 (horder.mem_iff.mp he))]
  exact ⟨hnone, Router_of_not_found j order paramOrder w r hnone⟩

/-- C7 at `GET /v1/1/2/3/4` with only `/v1/{v1}/{v2}/{v3}/{v4}/{v5}` registered. -/
theorem Router_not_found_of_segment_count_witness :
    findHandler manyVarsRouter.routes (getRequest "/v1/1/2/3/4").Method
        (getRequest "/v1/1/2/3/4").Path = .ok none ∧
      Router manyVarsRouter manyVarsRouter.routes (fun ps => ps) () (getRequest "/v1/1/2/3/4")
        = manyVarsRouter.notFound () (getRequest "/v1/1/2/3/4") :=
  Router_not_found_of_segment_count manyVarsRouter manyVarsRouter.routes (List.Perm.refl _)
    (fun ps => ps) () (getRequest "/v1/1/2/3/4")
    (by
      intro route mh hmem
      have hr : manyVarsRouter.routes
          = [("/v1/{v1}/{v2}/{v3}/{v4}/{v5}".toList, [("GET".toList, logHandler 0)])] := rfl
      rw [hr, List.mem_singleton] at hmem
      have h1 : route = "/v1/{v1}/{v2}/{v3}/{v4}/{v5}".toList := congrArg Prod.fst hmem
      subst h1
      decide)

end Binding

/-! ## Registration (C8, C9) -/

namespace GoMap

variable {K V : Type} [DecidableEq K]

theorem mem_set {m : GoMap K V} {k : K} {v : V} {e : K × V} (h : e ∈ set m k v) :
    e = (k, v) ∨ e ∈ m := by
  induction m with
  | nil => simpa [set] using h
  | cons x rest ih =>
    obtain ⟨a, b⟩ := x
    by_cases hk : a = k
    · simp only [set, hk, if_true, List.mem_cons] at h
      rcases h with h | h
      · exact Or.inl h
      · exact Or.inr (List.mem_cons_of_mem _ h)
    · simp only [set, hk, if_false, List.mem_cons] at h
      rcases h with h | h
      · exact Or.inr (by simp [h])
      · rcases ih h with h | h
        · exact Or.inl h
        · exact Or.inr (List.mem_cons_of_mem _ h)

theorem filter_key_length_le_one (m : GoMap K V) (hnd : (keys m).Nodup) (k : K) :
    (m.filter (fun e => decide (e.1 = k))).length ≤ 1 := by
  induction m with
  | nil => simp
  | cons x rest ih =>
    obtain ⟨a, b⟩ := x
    simp only [keys, List.map_cons, List.nodup_cons] at hnd
    by_cases hk : a = k
    · subst hk
      have hnil : rest.filter (fun e => decide (e.1 = a)) = [] := by
        rw [List.filter_eq_nil_iff]
        intro e he hc
        exact hnd.1 (List.mem_map.mpr ⟨e, he, by simpa using hc⟩)
      simp [List.filter_cons, hnil]
    · simp only [List.filter_cons, hk, decide_False, Bool.false_eq_true, if_false]
      exact ih hnd.2

end GoMap

section Registration

variable {RW W : Type}

theorem addRoute_routes (j : Jano RW W) (method path : GoString) (handler : Handler RW W) :
    (addRoute j method path handler).routes =
      GoMap.set j.routes path
        (GoMap.set ((GoMap.lookup j.routes path).getD []) method handler) := by
  unfold addRoute
  cases hl : GoMap.lookup j.routes path with
  | none => simp [GoMap.lookup_set_self, GoMap.set_set]
  | some mh => simp [hl]

theorem addRoute_addRoute (j : Jano RW W) (method path : GoString) (h₁ h₂ : Handler RW W) :
    addRoute (addRoute j method path h₁) method path h₂ = addRoute j method path h₂ := by
  have hr : (addRoute (addRoute j method path h₁) method path h₂).routes
      = (addRoute j method path h₂).routes := by
    rw [addRoute_routes, addRoute_routes, addRoute_routes, GoMap.lookup_set_self, GoMap.set_set]
    simp [GoMap.set_set]
  have hm : ∀ (j' : Jano RW W) (h : Handler RW W),
      (addRoute j' method path h).middlewares = j'.middlewares ∧
        (addRoute j' method path h).notFound = j'.notFound := fun _ _ => ⟨rfl, rfl⟩
  cases hj2 : addRoute (addRoute j method path h₁) method path h₂ with
  | mk r2 m2 n2 =>
    cases hj1 : addRoute j method path h₂ with
    | mk r1 m1 n1 =>
      have e1 : r2 = r1 := by
        have := hr
        rw [hj2, hj1] at this
        exact this
      have e2 : m2 = m1 := by
        have a := (hm (addRoute j method path h₁) h₂).1
        have b := (hm j h₂).1
        have c := (hm j h₁).1
        rw [hj2] at a
        rw [hj1] at b
        simp only at a b
        rw [a, b, c]
      have e3 : n2 = n1 := by
        have a := (hm (addRoute j method path h₁) h₂).2
        have b := (hm j h₂).2
        have c := (hm j h₁).2
        rw [hj2] at a
        rw [hj1] at b
        simp only at a b
        rw [a, b, c]
      rw [e1, e2, e3]

theorem WellFormed_New (httpNotFound : Handler RW W) : WellFormed (New httpNotFound) := by
  simp [WellFormed, New, GoMap.keys]

theorem WellFormed_addRoute {j : Jano RW W} (hj : WellFormed j) (method path : GoString)
    (handler : Handler RW W) : WellFormed (addRoute j method path handler) := by
  unfold WellFormed
  rw [addRoute_routes]
  refine ⟨GoMap.nodup_keys_set hj.1 _ _, ?_⟩
  intro e he
  rcases GoMap.mem_set he with h | h
  · rw [h]
    refine GoMap.nodup_keys_set ?_ _ _
    cases hl : GoMap.lookup j.routes path with
    | none => simp [GoMap.keys]
    | some mh => exact hj.2 _ (GoMap.mem_of_lookup hl)
  · exact hj.2 e h

theorem WellFormed_Use {j : Jano RW W} (hj : WellFormed j) (middleware : Middleware RW W) :
    WellFormed (Use j middleware) := hj

theorem WellFormed_NotFound {j : Jano RW W} (hj : WellFormed j) (handler : Handler RW W) :
    WellFormed (NotFound j handler) := hj

theorem handlersAt_length_le_one {j : Jano RW W} (hj : WellFormed j)
    (pattern method : GoString) : (handlersAt j.routes pattern method).length ≤ 1 := by
  unfold handlersAt
  have h1 := GoMap.filter_key_length_le_one j.routes hj.1 pattern
  cases hf : j.routes.filter (fun e => decide (e.1 = pattern)) with
  | nil => simp
  | cons e rest =>
    rw [hf] at h1
    have hrest : rest = [] := by
      cases rest with
      | nil => rfl
      | cons _ _ => simp at h1
    subst hrest
    have hmem : e ∈ j.routes := by
      have : e ∈ j.routes.filter (fun e => decide (e.1 = pattern)) := by rw [hf]; simp
      exact (List.mem_filter.mp this).1
    simpa using GoMap.filter_key_length_le_one e.2 (hj.2 e hmem) method

theorem lookup_of_mem_addRoute {j : Jano RW W} (hj : WellFormed j) (method path : GoString)
    (handler : Handler RW W) (mh : MethodHandlers RW W)
    (hmem : (path, mh) ∈ (addRoute j method path handler).routes) :
    GoMap.lookup mh method = some handler := by
  have hwf := WellFormed_addRoute hj method path handler
  have hl := GoMap.lookup_of_mem hwf.1 hmem
  rw [addRoute_routes, GoMap.lookup_set_self] at hl
  rw [← Option.some.inj hl, GoMap.lookup_set_self]

end Registration

section RegistrationClaims

variable {RW W : Type}

theorem Router_single_entry (j : Jano RW W) (p : GoString) (mh : MethodHandlers RW W)
    (hroutes : j.routes = [(p, mh)]) (order : List (GoString × MethodHandlers RW W))
    (horder : order.Perm j.routes) (paramOrder : Params → List (GoString × GoString))
    (w : RW) (r : Request) :
    Router j order paramOrder w r =
      match candidate r.Method r.Path (p, mh) with
      | none => j.notFound w r
      | some (handler, params) =>
        wrapAll j.middlewares handler w (setParams r (paramOrder params)) := by
  rw [hroutes] at horder
  rw [Router_eq, List.perm_singleton.mp horder]
  simp only [List.findSome?]
  cases candidate r.Method r.Path (p, mh) <;> rfl

/-- C8: starting from an empty router, after registering `h1` for `(GET, p)` and `h2` for
`(POST, p)` in either order, a GET of a path matching `p` invokes `h1`, a POST invokes `h2`,
and any other method invokes the not-found handler. -/
theorem Router_methods_coexist (httpNotFound h1 h2 : Handler RW W) (p : GoString)
    (j : Jano RW W)
    (hj : j = Post (Get (New httpNotFound) p h1) p h2 ∨
      j = Get (Post (New httpNotFound) p h2) p h1)
    (order : List (GoString × MethodHandlers RW W)) (horder : order.Perm j.routes)
    (paramOrder : Params → List (GoString × GoString)) (w : RW) (r : Request) :
    (∀ params, matchRoute p r.Path = .ok (some params) → r.Method = "GET".toList →
      Router j order paramOrder w r = h1 w (setParams r (paramOrder params))) ∧
    (∀ params, matchRoute p r.Path = .ok (some params) → r.Method = "POST".toList →
      Router j order paramOrder w r = h2 w (setParams r (paramOrder params))) ∧
    (r.Method ≠ "GET".toList → r.Method ≠ "POST".toList →
      Router j order paramOrder w r = httpNotFound w r) := by
  have hne : "GET".toList ≠ "POST".toList := by decide
  have hne' : "POST".toList ≠ "GET".toList := by decide
  have hstate : ∃ mh : MethodHandlers RW W, j.routes = [(p, mh)] ∧ j.middlewares = [] ∧
      j.notFound = httpNotFound ∧ GoMap.lookup mh "GET".toList = some h1 ∧
      GoMap.lookup mh "POST".toList = some h2 ∧
      ∀ m, m ≠ "GET".toList → m ≠ "POST".toList → GoMap.lookup mh m = none := by
    rcases hj with hj | hj
    · refine ⟨[("GET".toList, h1), ("POST".toList, h2)], ?_, ?_, ?_, ?_, ?_, ?_⟩
      · rw [hj]
        simp [Post, Get, addRoute, New, GoMap.lookup, GoMap.set, hne]
      · rw [hj]; rfl
      · rw [hj]; rfl
      · simp [GoMap.lookup]
      · simp [GoMap.lookup, hne]
      · intro m hm1 hm2
        simp only [GoMap.lookup]
        rw [if_neg (Ne.symm hm1), if_neg (Ne.symm hm2)]
    · refine ⟨[("POST".toList, h2), ("GET".toList, h1)], ?_, ?_, ?_, ?_, ?_, ?_⟩
      · rw [hj]
        simp [Post, Get, addRoute, New, GoMap.lookup, GoMap.set, hne']
      · rw [hj]; rfl
      · rw [hj]; rfl
      · simp [GoMap.lookup, hne']
      · simp [GoMap.lookup]
      · intro m hm1 hm2
        simp only [GoMap.lookup]
        rw [if_neg (Ne.symm hm2), if_neg (Ne.symm hm1)]
  obtain ⟨mh, hroutes, hmw, hnf, hget, hpost, hother⟩ := hstate
  have hR := Router_single_entry j p mh hroutes order horder paramOrder w r
  refine ⟨?_, ?_, ?_⟩
  · intro params hmatch hm
    have hc : candidate r.Method r.Path (p, mh) = some (h1, params) :=
      (candidate_eq_some_iff _ _ _ _ _).mpr ⟨hmatch, by rw [hm]; exact hget⟩
    rw [hR, hc, hmw]
    rfl
  · intro params hmatch hm
    have hc : candidate r.Method r.Path (p, mh) = some (h2, params) :=
      (candidate_eq_some_iff _ _ _ _ _).mpr ⟨hmatch, by rw [hm]; exact hpost⟩
    rw [hR, hc, hmw]
    rfl
  · intro hm1 hm2
    have hc : candidate r.Method r.Path (p, mh) = none :=
      (candidate_eq_none_iff _ _ _).mpr (Or.inr (hother _ hm1 hm2))
    rw [hR, hc, hnf]

/-- C8 at the pattern `/people`, with `GetPeople` as handler 1 and `CreatePerson` as
handler 2: GET runs handler 1, POST runs handler 2, DELETE runs the not-found handler. -/
theorem Router_methods_coexist_witness :
    (Router (Post (Get (New (logHandler 404)) "/people".toList (logHandler 1))
          "/people".toList (logHandler 2))
        (Post (Get (New (logHandler 404)) "/people".toList (logHandler 1)) "/people".toList
          (logHandler 2)).routes (fun ps => ps) ()
        { Method := "GET".toList, Path := "/people".toList, ctx := [] }
      = logHandler 1 ()
          (setParams { Method := "GET".toList, Path := "/people".toList, ctx := [] } [])) ∧
    (Router (Post (Get (New (logHandler 404)) "/people".toList (logHandler 1))
          "/people".toList (logHandler 2))
        (Post (Get (New (logHandler 404)) "/people".toList (logHandler 1)) "/people".toList
          (logHandler 2)).routes (fun ps => ps) ()
        { Method := "POST".toList, Path := "/people".toList, ctx := [] }
      = logHandler 2 ()
          (setParams { Method := "POST".toList, Path := "/people".toList, ctx := [] } [])) ∧
    (Router (Post (Get (New (logHandler 404)) "/people".toList (logHandler 1))
          "/people".toList (logHandler 2))
        (Post (Get (New (logHandler 404)) "/people".toList (logHandler 1)) "/people".toList
          (logHandler 2)).routes (fun ps => ps) ()
        { Method := "DELETE".toList, Path := "/people".toList, ctx := [] }
      = logHandler 404 ()
          { Method := "DELETE".toList, Path := "/people".toList, ctx := [] }) :=
  ⟨(Router_methods_coexist (logHandler 404) (logHandler 1) (logHandler 2) "/people".toList
      (Post (Get (New (logHandler 404)) "/people".toList (logHandler 1)) "/people".toList
        (logHandler 2)) (Or.inl rfl) _ (List.Perm.refl _) (fun ps => ps) ()
      { Method := "GET".toList, Path := "/people".toList, ctx := [] }).1 [] (by decide) rfl,
    (Router_methods_coexist (logHandler 404) (logHandler 1) (logHandler 2) "/people".toList
      (Post (Get (New (logHandler 404)) "/people".toList (logHandler 1)) "/people".toList
        (logHandler 2)) (Or.inl rfl) _ (List.Perm.refl _) (fun ps => ps) ()
      { Method := "POST".toList, Path := "/people".toList, ctx := [] }).2.1 [] (by decide) rfl,
    (Router_methods_coexist (logHandler 404) (logHandler 1) (logHandler 2) "/people".toList
      (Post (Get (New (logHandler 404)) "/people".toList (logHandler 1)) "/people".toList
        (logHandler 2)) (Or.inl rfl) _ (List.Perm.refl _) (fun ps => ps) ()
      { Method := "DELETE".toList, Path := "/people".toList, ctx := [] }).2.2
      (by decide) (by decide)⟩

/-- C9: registering `(m, p, h1)` and then `(m, p, h2)` gives the same router state as
registering `(m, p, h2)` alone; the handler stored under `(p, m)` is then `h2`, so that a
dispatch of method `m` whose scan of the table stops at `p` invokes `h2`; and the table holds
at most one handler for every (pattern, method) pair. -/
theorem addRoute_last_write_wins (j : Jano RW W) (hj : WellFormed j) (m p : GoString)
    (h1 h2 : Handler RW W) :
    addRoute (addRoute j m p h1) m p h2 = addRoute j m p h2 ∧
    (GoMap.lookup (addRoute (addRoute j m p h1) m p h2).routes p).bind
        (fun mh => GoMap.lookup mh m) = some h2 ∧
    (∀ (order scanned rest : List (GoString × MethodHandlers RW W))
        (mh : MethodHandlers RW W) (paramOrder : Params → List (GoString × GoString))
        (w : RW) (r : Request) (params : Params),
      order.Perm (addRoute (addRoute j m p h1) m p h2).routes →
      order = scanned ++ (p, mh) :: rest →
      (∀ e ∈ scanned, matchRoute e.1 r.Path = .ok none ∨ GoMap.lookup e.2 r.Method = none) →
      r.Method = m → matchRoute p r.Path = .ok (some params) →
      Router (addRoute (addRoute j m p h1) m p h2) order paramOrder w r =
        wrapAll (addRoute (addRoute j m p h1) m p h2).middlewares h2 w
          (setParams r (paramOrder params))) ∧
    (∀ p' m', (handlersAt (addRoute (addRoute j m p h1) m p h2).routes p' m').length ≤ 1) := by
  have hwf1 := WellFormed_addRoute hj m p h1
  have hwf2 := WellFormed_addRoute hwf1 m p h2
  refine ⟨addRoute_addRoute j m p h1 h2, ?_, ?_, fun p' m' => handlersAt_length_le_one hwf2 p' m'⟩
  · rw [addRoute_routes, GoMap.lookup_set_self]
    simp [GoMap.lookup_set_self]
  · intro order scanned rest mh paramOrder w r params horder hsplit hscanned hm hmatch
    have hmem : (p, mh) ∈ (addRoute (addRoute j m p h1) m p h2).routes :=
      horder.mem_iff.mp (by rw [hsplit]; simp)
    have hl := lookup_of_mem_addRoute hwf1 m p h2 mh hmem
    have hfind : order.findSome? (candidate r.Method r.Path) = some (h2, params) := by
      rw [List.findSome?_eq_some_iff]
      refine ⟨scanned, (p, mh), rest, hsplit, ?_, ?_⟩
      · exact (candidate_eq_some_iff _ _ _ _ _).mpr ⟨hmatch, by rw [hm]; exact hl⟩
      · intro e he
        exact (candidate_eq_none_iff _ _ _).mpr (hscanned e he)
    rw [Router_eq, hfind]

/-- C9 on the empty router for `GET /x`: the second registration alone decides the state. -/
theorem addRoute_last_write_wins_witness :
    addRoute (addRoute (New (logHandler 404)) "GET".toList "/x".toList (logHandler 1))
        "GET".toList "/x".toList (logHandler 2)
      = addRoute (New (logHandler 404)) "GET".toList "/x".toList (logHandler 2) :=
  (addRoute_last_write_wins (New (logHandler 404)) (WellFormed_New _) "GET".toList "/x".toList
    (logHandler 1) (logHandler 2)).1

end RegistrationClaims

/-! ## The not-found handler (C10) -/

section NotFoundClaims

variable {RW W : Type}

/-- C10: a request for which the lookup finds nothing is served by the configured not-found
handler and nothing else: the default one on a router fresh from `New`, and `h` once
`NotFound h` was called, also after later registrations; `NotFound` leaves the route table
and the middleware chain as they were, and requests that are found are dispatched as before. -/
theorem Router_not_found_handler (j : Jano RW W)
    (order : List (GoString × MethodHandlers RW W))
    (paramOrder : Params → List (GoString × GoString)) (w : RW) (r : Request)
    (hnone : findHandler order r.Method r.Path = .ok none)
    (httpNotFound h : Handler RW W) :
    Router j order paramOrder w r = j.notFound w r ∧
    (∀ order', order'.Perm (New httpNotFound).routes →
      Router (New httpNotFound) order' paramOrder w r = httpNotFound w r) ∧
    Router (NotFound j h) order paramOrder w r = h w r ∧
    (NotFound j h).routes = j.routes ∧
    (NotFound j h).middlewares = j.middlewares ∧
    (∀ method path handler, (addRoute (NotFound j h) method path handler).notFound = h) ∧
    (∀ middleware, (Use (NotFound j h) middleware).notFound = h) ∧
    (∀ (order' : List (GoString × MethodHandlers RW W)) (r' : Request),
      (∃ found, findHandler order' r'.Method r'.Path = .ok (some found)) →
      Router (NotFound j h) order' paramOrder w r' = Router j order' paramOrder w r') := by
  refine ⟨Router_of_not_found j order paramOrder w r hnone, ?_,
    Router_of_not_found (NotFound j h) order paramOrder w r hnone, rfl, rfl, ?_, ?_, ?_⟩
  · intro order' horder'
    have : order' = [] := List.Perm.eq_nil horder'
    subst this
    rfl
  · intro method path handler
    rfl
  · intro middleware
    rfl
  · rintro order' r' ⟨⟨handler, params⟩, hfound⟩
    rw [Router_of_found _ order' paramOrder w r' handler params hfound,
      Router_of_found _ order' paramOrder w r' handler params hfound]
    rfl

/-- C10 at `GET /missing` on the router with the single route `GET /x`, before and after
`NotFound` installs handler 7. -/
theorem Router_not_found_handler_witness :
    findHandler xRouter.routes (getRequest "/missing").Method (getRequest "/missing").Path
        = .ok none ∧
      Router xRouter xRouter.routes (fun ps => ps) () (getRequest "/missing")
        = xRouter.notFound () (getRequest "/missing") ∧
      Router (NotFound xRouter (logHandler 7)) xRouter.routes (fun ps => ps) ()
          (getRequest "/missing")
        = logHandler 7 () (getRequest "/missing") :=
  have h := Router_not_found_handler xRouter xRouter.routes (fun ps => ps) ()
    (getRequest "/missing") rfl (logHandler 404) (logHandler 7)
  ⟨rfl, h.1, h.2.2.1⟩

end NotFoundClaims

/-! ## `strings.Split` -/

namespace strings

theorem Split_ne_nil (s : GoString) (sep : Char) : Split s sep ≠ [] := by
  cases s with
  | nil => simp [Split]
  | cons c cs =>
    by_cases h : c = sep
    · simp [Split, h]
    · simp only [Split, h, if_false]
      cases Split cs sep <;> simp

theorem Split_cons_sep (cs : GoString) (sep : Char) :
    Split (sep :: cs) sep = [] :: Split cs sep := by
  simp [Split]

theorem Split_cons_ne {c sep : Char} (h : c ≠ sep) (cs : GoString) :
    ∃ seg rest, Split cs sep = seg :: rest ∧ Split (c :: cs) sep = (c :: seg) :: rest := by
  cases hs : Split cs sep with
  | nil => exact absurd hs (Split_ne_nil cs sep)
  | cons seg rest =>
    refine ⟨seg, rest, rfl, ?_⟩
    simp [Split, h, hs]

theorem Split_length (s : GoString) (sep : Char) :
    (Split s sep).length = s.count sep + 1 := by
  induction s with
  | nil => simp [Split]
  | cons c cs ih =>
    by_cases h : c = sep
    · subst h
      rw [Split_cons_sep, List.length_cons, ih, List.count_cons_self]
    · obtain ⟨seg, rest, h1, h2⟩ := Split_cons_ne h cs
      rw [h2, List.length_cons, List.count_cons_of_ne (fun e => h e.symm), ← ih, h1,
        List.length_cons]

theorem Split_length_append_sep (s : GoString) (sep : Char) :
    (Split (s ++ [sep]) sep).length = (Split s sep).length + 1 := by
  rw [Split_length, Split_length, List.count_append]
  simp

theorem Split_injective {s t : GoString} {sep : Char} (h : Split s sep = Split t sep) :
    s = t := by
  induction s generalizing t with
  | nil =>
    cases t with
    | nil => rfl
    | cons d ds =>
      by_cases hd : d = sep
      · subst hd
        rw [Split_cons_sep] at h
        simp only [Split, List.cons.injEq, true_and] at h
        exact absurd h.symm (Split_ne_nil ds d)
      · obtain ⟨seg, rest, _, h2⟩ := Split_cons_ne hd ds
        rw [h2] at h
        simp [Split] at h
  | cons c cs ih =>
    cases t with
    | nil =>
      by_cases hc : c = sep
      · subst hc
        rw [Split_cons_sep] at h
        simp only [Split, List.cons.injEq, true_and] at h
        exact absurd h (Split_ne_nil cs c)
      · obtain ⟨seg, rest, _, h2⟩ := Split_cons_ne hc cs
        rw [h2] at h
        simp [Split] at h
    | cons d ds =>
      by_cases hc : c = sep
      · subst hc
        by_cases hd : d = c
        · subst hd
          rw [Split_cons_sep, Split_cons_sep] at h
          rw [ih (List.cons.inj h).2]
        · obtain ⟨seg, rest, _, h2⟩ := Split_cons_ne hd ds
          rw [Split_cons_sep, h2] at h
          simp at h
      · obtain ⟨seg, rest, h1, h2⟩ := Split_cons_ne hc cs
        by_cases hd : d = sep
        · subst hd
          rw [Split_cons_sep, h2] at h
          simp at h
        · obtain ⟨seg', rest', h1', h2'⟩ := Split_cons_ne hd ds
          rw [h2, h2'] at h
          simp only [List.cons.injEq] at h
          obtain ⟨⟨hcd, hseg⟩, hrest⟩ := h
          have : Split cs sep = Split ds sep := by rw [h1, h1', hseg, hrest]
          rw [hcd, ih this]

theorem Split_of_not_mem {s : GoString} {sep : Char} (h : sep ∉ s) : Split s sep = [s] := by
  induction s with
  | nil => rfl
  | cons c cs ih =>
    have hc : c ≠ sep := fun e => h (by simp [e])
    have hcs : sep ∉ cs := fun e => h (List.mem_cons_of_mem _ e)
    simp [Split, hc, ih hcs]

theorem Split_append_sep_cons {a : GoString} {sep : Char} (h : sep ∉ a) (b : GoString) :
    Split (a ++ sep :: b) sep = a :: Split b sep := by
  induction a with
  | nil => simp [Split]
  | cons c cs ih =>
    have hc : c ≠ sep := fun e => h (by simp [e])
    have hcs : sep ∉ cs := fun e => h (List.mem_cons_of_mem _ e)
    simp [Split, hc, ih hcs]

theorem not_mem_of_mem_Split {s seg : GoString} {sep : Char} (h : seg ∈ Split s sep) :
    sep ∉ seg := by
  induction s generalizing seg with
  | nil =>
    simp only [Split, List.mem_singleton] at h
    subst h
    simp
  | cons c cs ih =>
    by_cases hc : c = sep
    · subst hc
      rw [Split_cons_sep, List.mem_cons] at h
      rcases h with h | h
      · subst h; simp
      · exact ih h
    · obtain ⟨seg', rest, h1, h2⟩ := Split_cons_ne hc cs
      rw [h2, List.mem_cons] at h
      rcases h with h | h
      · subst h
        have := @ih seg' (by rw [h1]; simp)
        intro hm
        rcases List.mem_cons.mp hm with e | e
        · exact hc e.symm
        · exact this e
      · exact ih (by rw [h1]; exact List.mem_cons_of_mem _ h)

end strings

/-! ## Trailing slashes (C11), literal patterns (C12), unconditional binding (C13) -/

/-- C11: there is no trailing-slash normalization: appending `/` adds exactly one segment, so
a pattern never matches itself followed by `/`, and the pattern followed by `/` never matches
the pattern. -/
theorem matchRoute_no_trailing_slash (p : GoString) :
    matchRoute p (p ++ ['/']) = .ok none ∧
      matchRoute (p ++ ['/']) p = .ok none ∧
      (strings.Split (p ++ ['/']) '/').length = (strings.Split p '/').length + 1 := by
  have hlen := strings.Split_length_append_sep p '/'
  refine ⟨?_, ?_, hlen⟩
  · rw [matchRoute_eq, if_neg (by rw [hlen]; omega)]
  · rw [matchRoute_eq, if_neg (by rw [hlen]; omega)]

theorem bindParts_literal (routeParts pathParts : List GoString) (params out : Params)
    (hlit : ∀ seg ∈ routeParts, isParamPart seg = false)
    (hlen : routeParts.length = pathParts.length) :
    bindParts routeParts pathParts params = some out ↔ routeParts = pathParts ∧ out = params := by
  induction routeParts generalizing pathParts with
  | nil =>
    cases pathParts with
    | nil =>
      simp only [bindParts, Option.some.injEq, true_and]
      exact eq_comm
    | cons pp ps => simp at hlen
  | cons rp rs ih =>
    cases pathParts with
    | nil => simp at hlen
    | cons pp ps =>
      have hrp : isParamPart rp = false := hlit rp (List.mem_cons_self _ _)
      have hrs : ∀ seg ∈ rs, isParamPart seg = false :=
        fun seg h => hlit seg (List.mem_cons_of_mem _ h)
      have hlen' : rs.length = ps.length := by simpa using hlen
      by_cases he : rp = pp
      · subst he
        simp only [bindParts, hrp, Bool.false_eq_true, if_false, if_true, List.cons.injEq,
          true_and]
        exact ih ps hrs hlen'
      · simp [bindParts, hrp, he]

/-- C12: a pattern none of whose segments both starts with `{` and ends with `}` matches
verbatim: `matchRoute p q` succeeds exactly when `q = p`, and the returned map is then empty. -/
theorem matchRoute_literal_pattern (p q : GoString)
    (hlit : ∀ seg ∈ strings.Split p '/',
      ¬ (strings.HasPrefix seg ['{'] = true ∧ strings.HasSuffix seg ['}'] = true)) :
    ((∃ params, matchRoute p q = .ok (some params)) ↔ q = p) ∧
      (∀ params, matchRoute p q = .ok (some params) → params = []) ∧
      (q ≠ p → matchRoute p q = .ok none) ∧
      matchRoute p p = .ok (some []) := by
  have hlit' : ∀ seg ∈ strings.Split p '/', isParamPart seg = false := by
    intro seg hseg
    have := hlit seg hseg
    cases hb : isParamPart seg with
    | false => rfl
    | true =>
      unfold isParamPart at hb
      rw [Bool.and_eq_true] at hb
      exact absurd hb this
  have hsome : ∀ params, matchRoute p q = .ok (some params) ↔ q = p ∧ params = [] := by
    intro params
    rw [matchRoute_some_iff]
    constructor
    · rintro ⟨hlen, hb⟩
      obtain ⟨h1, h2⟩ := (bindParts_literal _ _ [] params hlit' hlen).mp hb
      exact ⟨(strings.Split_injective h1).symm, h2⟩
    · rintro ⟨rfl, rfl⟩
      exact ⟨rfl, (bindParts_literal _ _ [] [] hlit' rfl).mpr ⟨rfl, rfl⟩⟩
  refine ⟨⟨?_, ?_⟩, ?_, ?_, ?_⟩
  · rintro ⟨params, h⟩
    exact ((hsome params).mp h).1
  · intro h
    exact ⟨[], (hsome []).mpr ⟨h, rfl⟩⟩
  · intro params h
    exact ((hsome params).mp h).2
  · intro hne
    obtain ⟨o, ho⟩ := matchRoute_total p q
    cases o with
    | none => exact ho
    | some params => exact absurd ((hsome params).mp ho).1 hne
  · rw [matchRoute_some_iff]
    exact ⟨rfl, (bindParts_literal _ _ [] [] hlit' rfl).mpr ⟨rfl, rfl⟩⟩

/-- C12 at the pattern `/prefix-{id}/{id/id}`, whose segments `prefix-{id}`, `{id` and `id}`
are literals: it matches itself with no parameter, and not `/prefix-42/{id/id}`. -/
theorem matchRoute_literal_pattern_witness :
    matchRoute "/prefix-\x7bid\x7d/\x7bid/id\x7d".toList "/prefix-\x7bid\x7d/\x7bid/id\x7d".toList
        = .ok (some []) ∧
      matchRoute "/prefix-\x7bid\x7d/\x7bid/id\x7d".toList "/prefix-42/\x7bid/id\x7d".toList
        = .ok none :=
  ⟨(matchRoute_literal_pattern "/prefix-\x7bid\x7d/\x7bid/id\x7d".toList
      "/prefix-\x7bid\x7d/\x7bid/id\x7d".toList (by decide)).2.2.2,
    (matchRoute_literal_pattern "/prefix-\x7bid\x7d/\x7bid/id\x7d".toList
      "/prefix-42/\x7bid/id\x7d".toList (by decide)).2.2.1 (by decide)⟩

theorem slash_not_mem_paramPart {s : GoString} (hs : '/' ∉ s) : '/' ∉ paramPart s := by
  unfold paramPart
  intro h
  rcases List.mem_cons.mp h with h | h
  · exact absurd h (by decide)
  · rcases List.mem_append.mp h with h | h
    · exact hs h
    · simp at h

/-- C13: binding is unconditional and the name is the segment without its first and last
character: for every `s` and `v` without `/`, the pattern `/v1/{` + `s` + `}` matches
`/v1/` + `v` and returns the map with the single key `s`, bound to `v`. -/
theorem matchRoute_binds_any_segment (s v : GoString) (hs : '/' ∉ s) (hv : '/' ∉ v) :
    matchRoute ("/v1/\x7b".toList ++ s ++ "\x7d".toList) ("/v1/".toList ++ v)
      = .ok (some [(s, v)]) := by
  have hpat : "/v1/\x7b".toList ++ s ++ "\x7d".toList
      = [] ++ '/' :: (['v', '1'] ++ '/' :: paramPart s) := by
    simp [paramPart, String.toList]
  have hpath : "/v1/".toList ++ v = [] ++ '/' :: (['v', '1'] ++ '/' :: v) := by
    simp [String.toList]
  have h1 : strings.Split ("/v1/\x7b".toList ++ s ++ "\x7d".toList) '/'
      = [[], ['v', '1'], paramPart s] := by
    rw [hpat, strings.Split_append_sep_cons (by simp),
      strings.Split_append_sep_cons (by decide),
      strings.Split_of_not_mem (slash_not_mem_paramPart hs)]
  have h2 : strings.Split ("/v1/".toList ++ v) '/' = [[], ['v', '1'], v] := by
    rw [hpath, strings.Split_append_sep_cons (by simp),
      strings.Split_append_sep_cons (by decide), strings.Split_of_not_mem hv]
  have e1 : isParamPart ([] : GoString) = false := by decide
  have e2 : isParamPart ['v', '1'] = false := by decide
  rw [matchRoute_eq, h1, h2]
  simp only [List.length_cons, List.length_nil, if_true, bindParts, e1, e2,
    isParamPart_paramPart, name_paramPart, GoMap.set, Bool.false_eq_true, if_false]

/-- C13 at the pattern `/v1/{v1:(?:a|b)}`: it matches `/v1/a` and `/v1/b` and equally
`/v1/c`, each time under the key `v1:(?:a|b)`. -/
theorem matchRoute_binds_any_segment_witness :
    matchRoute "/v1/\x7bv1:(?:a|b)\x7d".toList "/v1/a".toList
        = .ok (some [("v1:(?:a|b)".toList, "a".toList)]) ∧
      matchRoute "/v1/\x7bv1:(?:a|b)\x7d".toList "/v1/b".toList
        = .ok (some [("v1:(?:a|b)".toList, "b".toList)]) ∧
      matchRoute "/v1/\x7bv1:(?:a|b)\x7d".toList "/v1/c".toList
        = .ok (some [("v1:(?:a|b)".toList, "c".toList)]) :=
  ⟨matchRoute_binds_any_segment "v1:(?:a|b)".toList "a".toList (by decide) (by decide),
    matchRoute_binds_any_segment "v1:(?:a|b)".toList "b".toList (by decide) (by decide),
    matchRoute_binds_any_segment "v1:(?:a|b)".toList "c".toList (by decide) (by decide)⟩

/-! ## No panic (C14) -/

/-- C14: the matching algorithm raises no error: `matchRoute` returns normally for every pattern
and path, because a segment with prefix `{` and suffix `}` has length at least 2, so that the
slice `[1 : len - 1]` is within bounds, and because `pathParts[i]` is within bounds once the
segment counts agree; `findHandler` returns normally for every table, method and path. The
slice does panic on the one-character segment `{`, which the test excludes. -/
theorem matchRoute_findHandler_no_panic {RW W : Type} (route path method : GoString)
    (order : List (GoString × MethodHandlers RW W)) :
    (∃ o, matchRoute route path = .ok o) ∧
      (∀ seg : GoString, strings.HasPrefix seg ['{'] = true →
        strings.HasSuffix seg ['}'] = true →
        2 ≤ seg.length ∧ ∃ name, slice seg 1 ((seg.length : Int) - 1) = .ok name) ∧
      ((strings.Split route '/').length = (strings.Split path '/').length →
        ∀ i, i < (strings.Split route '/').length →
          ∃ pathPart, index (strings.Split path '/') i = .ok pathPart) ∧
      (∃ o, findHandler order method path = .ok o) ∧
      slice ['{'] 1 (((['{'] : GoString).length : Int) - 1) = .error .sliceBoundsOutOfRange := by
  refine ⟨⟨_, matchRoute_eq route path⟩, ?_, ?_, ⟨_, findHandler_eq order method path⟩,
    by decide⟩
  · intro seg h1 h2
    have hp : isParamPart seg = true := by
      unfold isParamPart
      rw [Bool.and_eq_true]
      exact ⟨h1, h2⟩
    refine ⟨?_, _, slice_of_isParamPart hp⟩
    obtain ⟨name, rfl⟩ := (isParamPart_iff seg).mp hp
    simp [paramPart]
  · intro hlen i hi
    rw [hlen] at hi
    refine ⟨(strings.Split path '/').get ⟨i, hi⟩, ?_⟩
    simp [index, List.getElem?_eq_getElem hi]

/-! ## The exact shape of the bound parameters (C15) -/

theorem GoMap.length_set_le {K V : Type} [DecidableEq K] (m : GoMap K V) (k : K) (v : V) :
    (GoMap.set m k v).length ≤ m.length + 1 := by
  induction m with
  | nil => simp [GoMap.set]
  | cons e rest ih =>
    obtain ⟨a, b⟩ := e
    by_cases h : a = k
    · simp [GoMap.set, h]
    · simp only [GoMap.set, h, if_false, List.length_cons]
      omega

theorem bindParts_length_le (routeParts pathParts : List GoString) (params out : Params)
    (h : bindParts routeParts pathParts params = some out) :
    out.length ≤ params.length + (routeParts.filter isParamPart).length := by
  induction routeParts generalizing pathParts params with
  | nil =>
    simp only [bindParts, Option.some.injEq] at h
    subst h
    simp
  | cons rp rs ih =>
    cases pathParts with
    | nil => simp [bindParts] at h
    | cons pp ps =>
      by_cases hp : isParamPart rp = true
      · simp only [bindParts, hp, if_true] at h
        have h1 := ih ps _ h
        have h2 := GoMap.length_set_le params ((rp.drop 1).take (rp.length - 2)) pp
        rw [List.filter_cons_of_pos hp, List.length_cons]
        omega
      · by_cases he : rp = pp
        · subst he
          simp only [bindParts, hp, if_true, Bool.false_eq_true, if_false] at h
          rw [List.filter_cons_of_neg hp]
          exact ih ps _ h
        · simp [bindParts, hp, he] at h

theorem lastBinding_none_imp (routeParts pathParts : List GoString) (name : GoString)
    (h : lastBinding routeParts pathParts name = none)
    (hlen : routeParts.length ≤ pathParts.length) :
    ∀ k : Nat, routeParts[k]? ≠ some (paramPart name) := by
  induction routeParts generalizing pathParts with
  | nil => simp
  | cons rp rs ih =>
    cases pathParts with
    | nil => simp at hlen
    | cons pp ps =>
      simp only [lastBinding] at h
      cases hl : lastBinding rs ps name with
      | some v => rw [hl] at h; simp at h
      | none =>
        rw [hl] at h
        have hrp : rp ≠ paramPart name := by
          intro e
          simp [e] at h
        intro k
        cases k with
        | zero => simpa using hrp
        | succ k =>
          rw [List.getElem?_cons_succ]
          exact ih ps hl (by simpa using hlen) k

theorem lastBinding_some_imp (routeParts pathParts : List GoString) (name value : GoString)
    (h : lastBinding routeParts pathParts name = some value)
    (hlen : routeParts.length ≤ pathParts.length) :
    ∃ i : Nat, routeParts[i]? = some (paramPart name) ∧ pathParts[i]? = some value ∧
      ∀ k : Nat, i < k → routeParts[k]? ≠ some (paramPart name) := by
  induction routeParts generalizing pathParts with
  | nil => cases pathParts <;> simp [lastBinding] at h
  | cons rp rs ih =>
    cases pathParts with
    | nil => simp [lastBinding] at h
    | cons pp ps =>
      have hlen' : rs.length ≤ ps.length := by simpa using hlen
      simp only [lastBinding] at h
      cases hl : lastBinding rs ps name with
      | some v =>
        rw [hl] at h
        simp only [Option.some.injEq] at h
        subst h
        obtain ⟨i, h1, h2, h3⟩ := ih ps hl hlen'
        refine ⟨i + 1, by simpa using h1, by simpa using h2, ?_⟩
        intro k hk
        cases k with
        | zero => omega
        | succ k =>
          rw [List.getElem?_cons_succ]
          exact h3 k (by omega)
      | none =>
        rw [hl] at h
        by_cases he : rp = paramPart name
        · simp only [he, if_true, Option.some.injEq] at h
          subst h
          refine ⟨0, by simp [he], by simp, ?_⟩
          intro k hk
          cases k with
          | zero => omega
          | succ k =>
            rw [List.getElem?_cons_succ]
            exact lastBinding_none_imp rs ps name hl hlen' k
        · simp [he] at h

/-- C15: when `matchRoute` succeeds, `n` is a key of the returned map exactly when some
pattern segment is `{n}`, and the map sends `n` to `v` exactly when `v` is the path segment at
the last position whose pattern segment is `{n}`; every bound value is a segment of the path
and contains no `/`; no key occurs twice and there are at most as many keys as the pattern
has parameter segments. -/
theorem matchRoute_params_shape (route path : GoString) (params : Params)
    (hmatch : matchRoute route path = .ok (some params)) :
    (∀ n, n ∈ GoMap.keys params ↔
      ∃ i : Nat, (strings.Split route '/')[i]? = some ('{' :: (n ++ ['}']))) ∧
    (∀ n v, GoMap.lookup params n = some v ↔
      ∃ i : Nat, (strings.Split route '/')[i]? = some ('{' :: (n ++ ['}'])) ∧
        (strings.Split path '/')[i]? = some v ∧
        ∀ k : Nat, i < k → (strings.Split route '/')[k]? ≠ some ('{' :: (n ++ ['}']))) ∧
    (∀ n v, (n, v) ∈ params → v ∈ strings.Split path '/' ∧ '/' ∉ v) ∧
    (GoMap.keys params).Nodup ∧
    (GoMap.keys params).length ≤ ((strings.Split route '/').filter isParamPart).length := by
  obtain ⟨hlen, hbind⟩ := (matchRoute_some_iff route path params).mp hmatch
  have hnd := matchRoute_nodup hmatch
  have hlookup : ∀ n v, GoMap.lookup params n = some v ↔
      ∃ i : Nat, (strings.Split route '/')[i]? = some (paramPart n) ∧
        (strings.Split path '/')[i]? = some v ∧
        ∀ k : Nat, i < k → (strings.Split route '/')[k]? ≠ some (paramPart n) := by
    intro n v
    rw [matchRoute_lookup hmatch n]
    constructor
    · intro h
      exact lastBinding_some_imp _ _ n v h (le_of_eq hlen)
    · rintro ⟨i, h1, h2, h3⟩
      exact lastBinding_of_last _ _ n v i h1 h2 h3
  refine ⟨?_, hlookup, ?_, hnd, ?_⟩
  · intro n
    constructor
    · intro hn
      cases hl : GoMap.lookup params n with
      | none => exact absurd hn ((GoMap.lookup_eq_none_iff params n).mp hl)
      | some v =>
        obtain ⟨i, h1, _, _⟩ := (hlookup n v).mp hl
        exact ⟨i, h1⟩
    · rintro ⟨i, hi⟩
      by_contra hn
      have hl := (GoMap.lookup_eq_none_iff params n).mpr hn
      rw [matchRoute_lookup hmatch n] at hl
      exact lastBinding_none_imp _ _ n hl (le_of_eq hlen) i hi
  · intro n v hmem
    obtain ⟨i, _, h2, _⟩ := (hlookup n v).mp (GoMap.lookup_of_mem hnd hmem)
    have hv : v ∈ strings.Split path '/' := List.getElem?_mem h2
    exact ⟨hv, strings.not_mem_of_mem_Split hv⟩
  · have := bindParts_length_le _ _ [] params hbind
    simpa [GoMap.keys] using this

/-- C15 at `/{id}/{id}` and `/a/b`: the map has the single key `id`, bound to the segment `b`
of the last position, for two parameter segments. -/
theorem matchRoute_params_shape_witness :
    matchRoute "/{id}/{id}".toList "/a/b".toList = .ok (some [("id".toList, "b".toList)]) ∧
      (GoMap.lookup [("id".toList, "b".toList)] "id".toList = some "b".toList ↔
        ∃ i : Nat, (strings.Split "/{id}/{id}".toList '/')[i]? = some ('{' :: ("id".toList ++ ['}']))
          ∧ (strings.Split "/a/b".toList '/')[i]? = some "b".toList ∧
          ∀ k : Nat, i < k →
            (strings.Split "/{id}/{id}".toList '/')[k]? ≠ some ('{' :: ("id".toList ++ ['}']))) ∧
      (GoMap.keys [("id".toList, "b".toList)]).length
        ≤ ((strings.Split "/{id}/{id}".toList '/').filter isParamPart).length :=
  have h := matchRoute_params_shape "/{id}/{id}".toList "/a/b".toList
    [("id".toList, "b".toList)] (by decide)
  ⟨by decide, h.2.1 "id".toList "b".toList, h.2.2.2.2⟩

/-! ## Unmatched requests and the middleware chain (C16) -/

section LaterClaims

variable {RW W : Type}

/-- C16: a request for which the lookup finds nothing bypasses the middleware chain: whatever
middleware is registered, the dispatch is the not-found handler applied to the original
request, and the result does not depend on the chain. -/
theorem Router_unmatched_bypasses_middleware (j : Jano RW W)
    (order : List (GoString × MethodHandlers RW W))
    (paramOrder : Params → List (GoString × GoString)) (w : RW) (r : Request)
    (hnone : findHandler order r.Method r.Path = .ok none) (ms : List (Middleware RW W)) :
    Router j order paramOrder w r = j.notFound w r ∧
      Router { j with middlewares := ms } order paramOrder w r = j.notFound w r ∧
      Router (ms.foldl Use j) order paramOrder w r = j.notFound w r := by
  refine ⟨Router_of_not_found j order paramOrder w r hnone,
    Router_of_not_found _ order paramOrder w r hnone, ?_⟩
  rw [Router_of_not_found _ order paramOrder w r hnone, (middlewares_foldl_Use j ms).2.2]

/-- C16 at `GET /missing` on the router with `GET /x` and the middleware `M1`, `M2`: only the
not-found handler writes to the log. -/
theorem Router_unmatched_bypasses_middleware_witness :
    findHandler onionRouter.routes (getRequest "/missing").Method (getRequest "/missing").Path
        = .ok none ∧
      Router onionRouter onionRouter.routes (fun ps => ps) () (getRequest "/missing")
        = onionRouter.notFound () (getRequest "/missing") ∧
      onionRouter.notFound () (getRequest "/missing") [] = .ok [.handled 404] :=
  ⟨rfl,
    (Router_unmatched_bypasses_middleware onionRouter onionRouter.routes (fun ps => ps) ()
      (getRequest "/missing") rfl []).1,
    by decide⟩

/-! ## Determinism of the lookup (C17) -/

theorem findSome_candidate_perm (routes order₁ order₂ : List (GoString × MethodHandlers RW W))
    (method path : GoString) (hkeys : (GoMap.keys routes).Nodup)
    (hunique : ∀ p₁ mh₁ p₂ mh₂, (p₁, mh₁) ∈ routes → (p₂, mh₂) ∈ routes →
      candidate method path (p₁, mh₁) ≠ none → candidate method path (p₂, mh₂) ≠ none →
      p₁ = p₂)
    (h₁ : order₁.Perm routes) (h₂ : order₂.Perm routes) :
    order₁.findSome? (candidate method path) = order₂.findSome? (candidate method path) := by
  by_cases hex : ∃ e ∈ routes, candidate method path e ≠ none
  · obtain ⟨e, he, hc⟩ := hex
    obtain ⟨b, hb⟩ := Option.ne_none_iff_exists'.mp hc
    have hothers : ∀ e' ∈ routes, e' ≠ e → candidate method path e' = none := by
      intro e' he' hne
      by_contra hc'
      have hp : e'.1 = e.1 := hunique e'.1 e'.2 e.1 e.2 he' he hc' hc
      have l1 := GoMap.lookup_of_mem hkeys (k := e'.1) (v := e'.2) he'
      have l2 := GoMap.lookup_of_mem hkeys (k := e.1) (v := e.2) he
      rw [hp, l2] at l1
      exact hne (Prod.ext hp (Option.some.inj l1).symm)
    rw [findSome_candidate_unique order₁ method path e b.1 b.2 (h₁.mem_iff.mpr he) hb
        (fun e' he' => hothers e' (h₁.mem_iff.mp he')),
      findSome_candidate_unique order₂ method path e b.1 b.2 (h₂.mem_iff.mpr he) hb
        (fun e' he' => hothers e' (h₂.mem_iff.mp he'))]
  · have hall : ∀ e ∈ routes, candidate method path e = none := by
      intro e he
      by_contra hc
      exact hex ⟨e, he, hc⟩
    rw [List.findSome?_eq_none_iff.mpr (fun e he => hall e (h₁.mem_iff.mp he)),
      List.findSome?_eq_none_iff.mpr (fun e he => hall e (h₂.mem_iff.mp he))]

theorem logHandler_one_ne_two : logHandler 1 ≠ logHandler 2 := by
  intro h
  have := congrFun (congrFun (congrFun h ()) (getRequest "/x")) []
  exact absurd this (by decide)

/-- C17: when at most one registered pattern both matches the path and has a handler for the
method, `findHandler` returns the same result in every visiting order of the table; and
there is a table, with `/people/{id}` and `/people/new` both registered for GET, on which two
visiting orders return different handlers for `GET /people/new`. -/
theorem findHandler_deterministic_when_unambiguous :
    (∀ (j : Jano RW W) (method path : GoString), (GoMap.keys j.routes).Nodup →
      (∀ p₁ mh₁ p₂ mh₂, (p₁, mh₁) ∈ j.routes → (p₂, mh₂) ∈ j.routes →
        (∃ ps, matchRoute p₁ path = .ok (some ps)) → (∃ h, GoMap.lookup mh₁ method = some h) →
        (∃ ps, matchRoute p₂ path = .ok (some ps)) → (∃ h, GoMap.lookup mh₂ method = some h) →
        p₁ = p₂) →
      ∀ order₁ order₂ : List (GoString × MethodHandlers RW W),
        order₁.Perm j.routes → order₂.Perm j.routes →
        findHandler order₁ method path = findHandler order₂ method path) ∧
    (∃ (j : Jano Unit (List Event))
        (order₁ order₂ : List (GoString × MethodHandlers Unit (List Event)))
        (h₁ h₂ : Handler Unit (List Event)) (ps₁ ps₂ : Params),
      (GoMap.keys j.routes).Nodup ∧ order₁.Perm j.routes ∧ order₂.Perm j.routes ∧
        findHandler order₁ "GET".toList "/people/new".toList = .ok (some (h₁, ps₁)) ∧
        findHandler order₂ "GET".toList "/people/new".toList = .ok (some (h₂, ps₂)) ∧
        h₁ ≠ h₂) := by
  constructor
  · intro j method path hkeys hunique order₁ order₂ h₁ h₂
    rw [findHandler_eq, findHandler_eq]
    congr 1
    refine findSome_candidate_perm j.routes order₁ order₂ method path hkeys ?_ h₁ h₂
    intro p₁ mh₁ p₂ mh₂ hm₁ hm₂ hc₁ hc₂
    obtain ⟨b₁, hb₁⟩ := Option.ne_none_iff_exists'.mp hc₁
    obtain ⟨b₂, hb₂⟩ := Option.ne_none_iff_exists'.mp hc₂
    obtain ⟨x₁, y₁⟩ := (candidate_eq_some_iff method path (p₁, mh₁) b₁.1 b₁.2).mp hb₁
    obtain ⟨x₂, y₂⟩ := (candidate_eq_some_iff method path (p₂, mh₂) b₂.1 b₂.2).mp hb₂
    exact hunique p₁ mh₁ p₂ mh₂ hm₁ hm₂ ⟨_, x₁⟩ ⟨_, y₁⟩ ⟨_, x₂⟩ ⟨_, y₂⟩
  · exact ⟨peopleRouter, peopleRouter.routes, peopleRouter.routes.reverse, logHandler 1,
      logHandler 2, [("id".toList, "new".toList)], [], by decide, List.Perm.refl _,
      List.reverse_perm _, rfl, rfl, logHandler_one_ne_two⟩

/-- C17 at `GET /people/42` on the router with `/people/{id}` and `/people/new`: only
`/people/{id}` matches, and the table read forwards and backwards gives the same result. -/
theorem findHandler_deterministic_when_unambiguous_witness :
    findHandler peopleRouter.routes "GET".toList "/people/42".toList
      = findHandler peopleRouter.routes.reverse "GET".toList "/people/42".toList :=
  (@findHandler_deterministic_when_unambiguous Unit (List Event)).1 peopleRouter "GET".toList
    "/people/42".toList (by decide)
    (by
      have hnew : ¬ ∃ ps, matchRoute "/people/new".toList "/people/42".toList = .ok (some ps) := by
        rintro ⟨ps, h⟩
        have h' : matchRoute "/people/new".toList "/people/42".toList = .ok none := by decide
        rw [h'] at h
        simp at h
      intro p₁ mh₁ p₂ mh₂ hm₁ hm₂ hx₁ _ hx₂ _
      rw [peopleRouter_routes] at hm₁ hm₂
      simp only [List.mem_cons, Prod.mk.injEq, List.mem_singleton, List.not_mem_nil,
        or_false] at hm₁ hm₂
      rcases hm₁ with ⟨e₁, _⟩ | ⟨e₁, _⟩ <;> rcases hm₂ with ⟨e₂, _⟩ | ⟨e₂, _⟩
      · rw [e₁, e₂]
      · rw [e₂] at hx₂
        exact absurd hx₂ hnew
      · rw [e₁] at hx₁
        exact absurd hx₁ hnew
      · rw [e₁, e₂])
    peopleRouter.routes peopleRouter.routes.reverse (List.Perm.refl _) (List.reverse_perm _)

/-! ## Frame of the registrations (C18) -/

/-- C18: `addRoute m p h` leaves the handler stored under every other (pattern, method) pair
as it was, the whole method table of every other pattern included, and leaves the middleware
chain and the not-found handler as they were; `Use mw` appends `mw` and leaves the route
table, the middleware registered before and the not-found handler as they were. -/
theorem addRoute_Use_frame (j : Jano RW W) (m p : GoString) (h : Handler RW W)
    (mw : Middleware RW W) :
    (∀ p' m', (p', m') ≠ (p, m) →
      (GoMap.lookup (addRoute j m p h).routes p').bind (fun mh => GoMap.lookup mh m')
        = (GoMap.lookup j.routes p').bind (fun mh => GoMap.lookup mh m')) ∧
    (∀ p', p' ≠ p → GoMap.lookup (addRoute j m p h).routes p' = GoMap.lookup j.routes p') ∧
    (addRoute j m p h).middlewares = j.middlewares ∧
    (addRoute j m p h).notFound = j.notFound ∧
    (Use j mw).middlewares = j.middlewares ++ [mw] ∧
    (∀ i : Nat, i < j.middlewares.length → (Use j mw).middlewares[i]? = j.middlewares[i]?) ∧
    (Use j mw).routes = j.routes ∧
    (Use j mw).notFound = j.notFound := by
  have hother : ∀ p', p' ≠ p →
      GoMap.lookup (addRoute j m p h).routes p' = GoMap.lookup j.routes p' := by
    intro p' hp
    rw [addRoute_routes, GoMap.lookup_set_ne _ _ (Ne.symm hp)]
  refine ⟨?_, hother, rfl, rfl, rfl, ?_, rfl, rfl⟩
  · intro p' m' hne
    by_cases hp : p' = p
    · subst hp
      have hm : m ≠ m' := by
        intro e
        exact hne (by rw [e])
      rw [addRoute_routes, GoMap.lookup_set_self]
      cases hl : GoMap.lookup j.routes p' with
      | none => simp [GoMap.lookup_set_ne _ _ hm, GoMap.lookup, hm]
      | some mh => simp [GoMap.lookup_set_ne _ _ hm]
    · rw [hother p' hp]
  · intro i hi
    show (j.middlewares ++ [mw])[i]? = j.middlewares[i]?
    exact List.getElem?_append_left hi

end LaterClaims

end jano
